import Mathlib

/-!
# Editor page of the AIDOC generator: the section collection and its handlers

A shallow embedding of `frontend/src/pages/Editor.jsx`, and of the choice of the
download filename in `exportDocument` of `frontend/src/api.js`.

* JavaScript values that may be `undefined` are `Option`s; a section is a record
  of the fields the page reads and writes.
* The React state of the component is `EditorState`; every `async` handler is cut
  at its `await`s: the part that runs when the handler is called puts a `Request`
  in `Sys.pending`, and `resume` is the part that runs when the result of that
  request arrives (the `try` body after the `await`, or `catch`, then `finally`).
* A step that returns `none` is a JavaScript exception that nothing catches
  (reading `.contents` of `null`, mapping over `undefined`) or a result for a
  request that is not pending.
-/

namespace Editor

/-- A section id as a JavaScript value: a number, or `undefined` (`none`). -/
abbrev ContentId := Option Nat

/-- One element of `project.contents`. `section_order` is always a number: the
backend sends one, and `onDragEnd` writes one into every object it builds. -/
structure Section where
  id : ContentId
  title : Option String
  section_order : Int
  content_text : Option String
  feedback : Option String
  user_notes : Option String
deriving DecidableEq, Repr

/-- The object held in the `project` state: what `getProject` returned. -/
structure Project where
  title : Option String
  doc_type : Option String
  contents : Option (List Section)
deriving DecidableEq, Repr

/-- JavaScript truthiness of a string-or-undefined value: `undefined` and `''`
are falsy. -/
def truthy : Option String → Bool
  | none => false
  | some s => s != ""

/-! ## The array operations of the handlers -/

/-- The comparator of `fetchProject`: `(a, b) => a.section_order - b.section_order`. -/
def compareOrder (a b : Section) : Int :=
  a.section_order - b.section_order

/-- `data.contents.sort((a, b) => a.section_order - b.section_order)`:
`Array.prototype.sort` is a stable sort, and the comparator is a consistent one,
so the result is the stable arrangement in which `a` precedes `b` unless the
comparator is positive. -/
def sortContents (contents : List Section) : List Section :=
  contents.insertionSort (fun a b => compareOrder a b ≤ 0)

/-- `prev.contents.map(c => c.id === contentId ? updatedContent : c)`
(`handleGenerate`, `handleRefine`). -/
def replaceContent (contentId : ContentId) (updatedContent : Section)
    (contents : List Section) : List Section :=
  contents.map (fun c => if c.id = contentId then updatedContent else c)

/-- `[...prev.contents, newContent]` (`handleAddSection`). -/
def appendContent (newContent : Section) (contents : List Section) : List Section :=
  contents ++ [newContent]

/-- `prev.contents.filter(c => c.id !== contentId)` (`handleDeleteSection`). -/
def removeContent (contentId : ContentId) (contents : List Section) : List Section :=
  contents.filter (fun c => decide (c.id ≠ contentId))

/-- `prev.contents.map(c => c.id === contentId ? { ...c, feedback } : c)`
(`handleFeedback`). -/
def patchFeedback (contentId : ContentId) (feedback : Option String)
    (contents : List Section) : List Section :=
  contents.map (fun c => if c.id = contentId then { c with feedback := feedback } else c)

/-- `prev.contents.map(c => c.id === contentId ? { ...c, user_notes: notes } : c)`
(`handleNotesSave`). -/
def patchNotes (contentId : ContentId) (notes : Option String)
    (contents : List Section) : List Section :=
  contents.map (fun c => if c.id = contentId then { c with user_notes := notes } else c)

/-- The start position `Array.prototype.splice` works at for an array of length
`len`: a negative `start` counts from the end, and the result is clamped to
`0..len`. -/
def spliceStart (len : Nat) (start : Int) : Nat :=
  if start < 0 then (Int.ofNat len + start).toNat else min start.toNat len

/-- `{ ...item, section_order: index }`: spreading `undefined` copies nothing, so
the object built from a missing item has `section_order` and no other field. -/
def withOrder (index : Nat) : Option Section → Section
  | some item => { item with section_order := Int.ofNat index }
  | none =>
    { id := none, title := none, section_order := Int.ofNat index,
      content_text := none, feedback := none, user_notes := none }

/-- `items.map((item, index) => ({ ...item, section_order: index }))`, counting
from `index`. -/
def renumberFrom (index : Nat) : List (Option Section) → List Section
  | [] => []
  | item :: rest => withOrder index item :: renumberFrom (index + 1) rest

/-- The array `onDragEnd` builds up to `items.splice(destination, 0, reorderedItem)`:
`items.splice(source, 1)` takes out at most one element (`reorderedItem` is
`undefined` when it takes none), which is then put in at `destination`. -/
def spliceItems (contents : List Section) (source destination : Int) :
    List (Option Section) :=
  let items : List (Option Section) := contents.map some
  let s := spliceStart items.length source
  let reorderedItem : Option Section := (items.drop s).head?.join
  let items := items.take s ++ items.drop (s + 1)
  let d := spliceStart items.length destination
  items.take d ++ reorderedItem :: items.drop d

/-- `updatedItems` of `onDragEnd`. -/
def reorderItems (contents : List Section) (source destination : Int) : List Section :=
  renumberFrom 0 (spliceItems contents source destination)

/-- Position `i` holds `section_order` `i`, for every position of the list. -/
def Contiguous (contents : List Section) : Prop :=
  contents.map (fun c => c.section_order) = (List.range contents.length).map Int.ofNat

instance (contents : List Section) : Decidable (Contiguous contents) :=
  inferInstanceAs (Decidable (_ = _))

/-! ## The component state and the remote operations -/

/-- The `useState` cells of `Editor`. An object used as a map from section id to
a value (`refinePrompts`, `notesOpen`, `notesText`) is a function, a key that was
never written reading as `undefined`. `generatingId` and `refiningId` are
`null` (`none`) or a section id. -/
structure EditorState where
  project : Option Project
  loading : Bool
  generatingId : Option ContentId
  refiningId : Option ContentId
  refinePrompts : ContentId → Option String
  newSectionTitle : String
  isAdding : Bool
  notesOpen : ContentId → Option Bool
  notesText : ContentId → Option String

/-- `useState` initial values. -/
def EditorState.initial : EditorState :=
  { project := none, loading := true, generatingId := none, refiningId := none,
    refinePrompts := fun _ => none, newSectionTitle := "", isAdding := false,
    notesOpen := fun _ => none, notesText := fun _ => none }

/-- `{ ...prev, [key]: value }` on an object used as a map. -/
def setKey {α : Type} (prev : ContentId → Option α) (key : ContentId) (value : α) :
    ContentId → Option α :=
  fun k => if k = key then some value else prev k

/-- An operation a handler is waiting for at an `await`, with the values its
continuation has captured. The last three are the awaits of `onDragEnd`, which
carry `updatedItems.map(c => c.id)`. -/
inductive Request where
  | getProject
  | generateContent (contentId : ContentId)
  | refineContent (contentId : ContentId) (prompt : Option String)
  | createContent (title : String)
  | deleteContent (contentId : ContentId)
  | updateFeedback (contentId : ContentId) (feedback : Option String)
  | updateNotes (contentId : ContentId) (notes : Option String)
  | importFirebase (ids : List ContentId)
  | getIdToken (ids : List ContentId)
  | putReorder (ids : List ContentId)
deriving DecidableEq, Repr

/-- What an awaited operation comes back with: a rejection, or a value. -/
inductive Outcome where
  | failure
  | ack
  | content (data : Section)
  | project (data : Project)
  | currentUser (present : Bool)
deriving DecidableEq, Repr

/-- The component together with the operations still awaited, oldest first. -/
structure Sys where
  ui : EditorState
  pending : List Request

/-- The contents list of the store, when a project with a contents list is held. -/
def Sys.contents (s : Sys) : Option (List Section) :=
  s.ui.project.bind (fun p => p.contents)

/-- `setProject(prev => ({ ...prev, contents: f(prev.contents) }))`, for an `f`
that reads `prev.contents` as an array: with no project, or no contents list, the
updater throws. -/
def setContents (f : List Section → List Section) (ui : EditorState) : Option EditorState :=
  match ui.project with
  | none => none
  | some prev =>
    match prev.contents with
    | none => none
    | some contents => some { ui with project := some { prev with contents := some (f contents) } }

/-- Awaiting one more operation. -/
def Sys.await (s : Sys) (r : Request) : Sys :=
  { s with pending := s.pending ++ [r] }

/-! ## The handlers, up to their first `await` -/

/-- `fetchProject`, up to `await getProject(id)`. -/
def fetchProject (s : Sys) : Sys :=
  s.await .getProject

/-- `handleGenerate`, up to `await generateContent(id, contentId)`. -/
def handleGenerate (s : Sys) (contentId : ContentId) : Sys :=
  { s with ui := { s.ui with generatingId := some contentId } }.await (.generateContent contentId)

/-- `handleRefine`, up to `await refineContent(contentId, prompt)`. -/
def handleRefine (s : Sys) (contentId : ContentId) : Sys :=
  let prompt := s.ui.refinePrompts contentId
  if !truthy prompt then s
  else { s with ui := { s.ui with refiningId := some contentId } }.await
    (.refineContent contentId prompt)

/-- `handleAddSection`, up to `await createContent(id, newSectionTitle)`. -/
def handleAddSection (s : Sys) : Sys :=
  if s.ui.newSectionTitle = "" then s
  else { s with ui := { s.ui with isAdding := true } }.await
    (.createContent s.ui.newSectionTitle)

/-- `handleDeleteSection`, up to `await deleteContent(id, contentId)`; `confirmed`
is the answer of `window.confirm`. -/
def handleDeleteSection (s : Sys) (contentId : ContentId) (confirmed : Bool) : Sys :=
  if !confirmed then s else s.await (.deleteContent contentId)

/-- `handleFeedback`, up to `await updateFeedback(id, contentId, feedback)`. -/
def handleFeedback (s : Sys) (contentId : ContentId) (feedback : Option String) : Sys :=
  s.await (.updateFeedback contentId feedback)

/-- `handleNotesSave`, up to `await updateNotes(id, contentId, notes)`. -/
def handleNotesSave (s : Sys) (contentId : ContentId) : Sys :=
  s.await (.updateNotes contentId (s.ui.notesText contentId))

/-- `toggleNotes`. `!prev[contentId]` of a key never written is `true`, and
`currentNotes || ''` is `currentNotes` when that is truthy. -/
def toggleNotes (s : Sys) (contentId : ContentId) (currentNotes : Option String) : Sys :=
  let opened : Bool := !((s.ui.notesOpen contentId).getD false)
  let draft : String := if truthy currentNotes then currentNotes.getD "" else ""
  let st : EditorState := { s.ui with notesOpen := setKey s.ui.notesOpen contentId opened }
  if !truthy (s.ui.notesText contentId) then
    { s with ui := { st with notesText := setKey st.notesText contentId draft } }
  else { s with ui := st }

/-- `onDragEnd`, up to `await import('../firebase')`: nothing without a
destination; otherwise the reordered copy of `project.contents` is stored, and the
awaits that lead to the `PUT .../reorder` begin. `Array.from(project.contents)`
throws without a project or a contents list. -/
def onDragEnd (s : Sys) (source : Int) (destination : Option Int) : Option Sys :=
  match destination with
  | none => some s
  | some dest =>
    match s.ui.project with
    | none => none
    | some project =>
      match project.contents with
      | none => none
      | some contents =>
        let updatedItems := reorderItems contents source dest
        let st : EditorState :=
          { s.ui with project := some { project with contents := some updatedItems } }
        some (Sys.await { s with ui := st }
          (.importFirebase (updatedItems.map (fun c => c.id))))

/-! ## The handlers, from an `await` on -/

/-- The continuation of the handler that awaited `r`, run when `o` arrives; `s`
no longer lists `r` as pending. A pair `(r, o)` that is not listed cannot occur. -/
def resume (s : Sys) : Request → Outcome → Option Sys
  -- fetchProject
  | .getProject, .project data =>
    some { s with ui := { s.ui with
      project := some { data with contents := data.contents.map sortContents },
      loading := false } }
  | .getProject, .failure => some { s with ui := { s.ui with loading := false } }
  -- handleGenerate
  | .generateContent contentId, .content updatedContent =>
    (setContents (replaceContent contentId updatedContent) s.ui).map
      (fun ui => { s with ui := { ui with generatingId := none } })
  | .generateContent _, .failure => some { s with ui := { s.ui with generatingId := none } }
  -- handleRefine
  | .refineContent contentId _, .content updatedContent =>
    (setContents (replaceContent contentId updatedContent) s.ui).map
      (fun ui => { s with ui := { ui with
        refinePrompts := setKey ui.refinePrompts contentId "", refiningId := none } })
  | .refineContent _ _, .failure => some { s with ui := { s.ui with refiningId := none } }
  -- handleAddSection
  | .createContent _, .content newContent =>
    (setContents (appendContent newContent) s.ui).map
      (fun ui => { s with ui := { ui with newSectionTitle := "", isAdding := false } })
  | .createContent _, .failure => some { s with ui := { s.ui with isAdding := false } }
  -- handleDeleteSection
  | .deleteContent contentId, .ack =>
    (setContents (removeContent contentId) s.ui).map (fun ui => { s with ui := ui })
  | .deleteContent _, .failure => some s
  -- handleFeedback: the section in the response is not read
  | .updateFeedback contentId feedback, .content _ =>
    (setContents (patchFeedback contentId feedback) s.ui).map (fun ui => { s with ui := ui })
  | .updateFeedback _ _, .failure => some s
  -- handleNotesSave: the section in the response is not read
  | .updateNotes contentId notes, .content _ =>
    (setContents (patchNotes contentId notes) s.ui).map (fun ui => { s with ui := ui })
  | .updateNotes _ _, .failure => some s
  -- onDragEnd: `auth.currentUser`, then the token, then the PUT; `catch` refetches
  | .importFirebase ids, .currentUser true => some (s.await (.getIdToken ids))
  | .importFirebase _, .currentUser false => some s
  | .importFirebase _, .failure => some (fetchProject s)
  | .getIdToken ids, .ack => some (s.await (.putReorder ids))
  | .getIdToken _, .failure => some (fetchProject s)
  | .putReorder _, .ack => some s
  | .putReorder _, .failure => some (fetchProject s)
  | _, _ => none

/-- What can happen to the page: a handler is called, an input changes, or the
result of the `i`-th pending operation arrives. -/
inductive Event where
  | mount
  | generate (contentId : ContentId)
  | refine (contentId : ContentId)
  | addSection
  | deleteSection (contentId : ContentId) (confirmed : Bool)
  | feedback (contentId : ContentId) (feedback : Option String)
  | notesSave (contentId : ContentId)
  | toggleNotes (contentId : ContentId) (currentNotes : Option String)
  | dragEnd (source : Int) (destination : Option Int)
  | changeTitle (value : String)
  | changePrompt (contentId : ContentId) (value : String)
  | changeNotes (contentId : ContentId) (value : String)
  | response (i : Nat) (o : Outcome)
deriving DecidableEq, Repr

/-- One step of the page. -/
def step (s : Sys) : Event → Option Sys
  | .mount => some (fetchProject s)
  | .generate contentId => some (handleGenerate s contentId)
  | .refine contentId => some (handleRefine s contentId)
  | .addSection => some (handleAddSection s)
  | .deleteSection contentId confirmed => some (handleDeleteSection s contentId confirmed)
  | .feedback contentId feedback => some (handleFeedback s contentId feedback)
  | .notesSave contentId => some (handleNotesSave s contentId)
  | .toggleNotes contentId currentNotes => some (toggleNotes s contentId currentNotes)
  | .dragEnd source destination => onDragEnd s source destination
  | .changeTitle value => some { s with ui := { s.ui with newSectionTitle := value } }
  | .changePrompt contentId value =>
    some { s with ui := { s.ui with refinePrompts := setKey s.ui.refinePrompts contentId value } }
  | .changeNotes contentId value =>
    some { s with ui := { s.ui with notesText := setKey s.ui.notesText contentId value } }
  | .response i o =>
    match s.pending[i]? with
    | none => none
    | some r => resume { s with pending := s.pending.eraseIdx i } r o

/-- The steps of a list of events, in order. -/
def run (s : Sys) : List Event → Option Sys
  | [] => some s
  | e :: es => (step s e).bind (fun s' => run s' es)

/-! ## The page as it is shown -/

/-- The Generate button of the section `contentId` is shown and not disabled: the
page is loaded, a section with that id has a falsy `content_text`, and
`generatingId === content.id` is false. -/
def generateEnabled (s : Sys) (contentId : ContentId) : Bool :=
  !s.ui.loading && (s.contents.getD []).any (fun content =>
    decide (content.id = contentId) && !truthy content.content_text
      && !decide (s.ui.generatingId = some content.id))

/-- The Refine button of the section `contentId` is shown and not disabled: a
section with that id has a truthy `content_text`, and
`refiningId === content.id || !refinePrompts[content.id]` is false. -/
def refineEnabled (s : Sys) (contentId : ContentId) : Bool :=
  !s.ui.loading && (s.contents.getD []).any (fun content =>
    decide (content.id = contentId) && truthy content.content_text
      && !(decide (s.ui.refiningId = some content.id)
            || !truthy (s.ui.refinePrompts content.id)))

/-- A click on the Generate button of the section `contentId`: `handleGenerate`
when the button takes clicks, nothing otherwise. -/
def clickGenerate (s : Sys) (contentId : ContentId) : Sys :=
  if generateEnabled s contentId then handleGenerate s contentId else s

/-- A click on the Refine button of the section `contentId`. -/
def clickRefine (s : Sys) (contentId : ContentId) : Sys :=
  if refineEnabled s contentId then handleRefine s contentId else s

/-- How many generate or refine operations for `contentId` are awaited. -/
def inFlight (s : Sys) (contentId : ContentId) : Nat :=
  s.pending.countP (fun r =>
    match r with
    | .generateContent k => decide (k = contentId)
    | .refineContent k _ => decide (k = contentId)
    | _ => false)

/-- The section `contentId` is shown as busy generating (spinner, disabled
button): `generatingId === content.id`. -/
def reportsGenerating (s : Sys) (contentId : ContentId) : Bool :=
  decide (s.ui.generatingId = some contentId)

/-- The section `contentId` is shown as busy refining: `refiningId === content.id`. -/
def reportsRefining (s : Sys) (contentId : ContentId) : Bool :=
  decide (s.ui.refiningId = some contentId)

/-! ## Sequences of successful store operations -/

/-- A change of the contents list that went through: the section the backend
returned for an add, the id of a delete, the two indices of a drag. -/
inductive StoreOp where
  | add (title : String) (newContent : Section)
  | delete (contentId : ContentId)
  | reorder (source destination : Int)
deriving DecidableEq, Repr

/-- The state change of a successful operation: the continuation of
`handleAddSection` and of `handleDeleteSection` after their `await`, and
`onDragEnd` with a destination. -/
def perform (s : Sys) : StoreOp → Option Sys
  | .add title newContent => resume s (.createContent title) (.content newContent)
  | .delete contentId => resume s (.deleteContent contentId) .ack
  | .reorder source destination => onDragEnd s source (some destination)

/-- The operations of a list, in order. -/
def performAll (s : Sys) : List StoreOp → Option Sys
  | [] => some s
  | op :: ops => (perform s op).bind (fun s' => performAll s' ops)

/-- What `perform` does to the contents list. -/
def applyOp (contents : List Section) : StoreOp → List Section
  | .add _ newContent => appendContent newContent contents
  | .delete contentId => removeContent contentId contents
  | .reorder source destination => reorderItems contents source destination

/-- An operation that cannot break the numbering of `contents`: an add whose
returned section carries the current length as its `section_order`, a delete
after which the sections left are the leading sections of the list, any drag. -/
def keepsOrder (contents : List Section) : StoreOp → Bool
  | .add _ newContent => decide (newContent.section_order = Int.ofNat contents.length)
  | .delete contentId =>
    decide (removeContent contentId contents
      = contents.take (removeContent contentId contents).length)
  | .reorder _ _ => true

/-- Every operation of the list is one that keeps the numbering of the list it is
applied to. -/
def keepOrder : List Section → List StoreOp → Bool
  | _, [] => true
  | contents, op :: ops => keepsOrder contents op && keepOrder (applyOp contents op) ops

/-! ## The reorder as the specification words it -/

/-- The list obtained from `contents` by removing the element at `sourceIndex`
and inserting it at `destIndex`, each element then getting its new position as
`section_order` and keeping every other field. (No element at `sourceIndex`:
nothing to move.) -/
def moveSpec (contents : List Section) (sourceIndex destIndex : Nat) : List Section :=
  match contents[sourceIndex]? with
  | none => contents
  | some moved =>
    ((contents.eraseIdx sourceIndex).insertIdx destIndex moved).mapIdx
      (fun position c => { c with section_order := Int.ofNat position })

/-! ## Example data -/

/-- A section as the backend sends it before any text was generated. -/
def mkSection (id : Nat) (title : String) (order : Int) : Section :=
  { id := some id, title := some title, section_order := order,
    content_text := none, feedback := none, user_notes := none }

/-- A loaded page holding `contents`, with nothing awaited. -/
def sysOf (contents : List Section) : Sys :=
  { ui := { EditorState.initial with
      project := some { title := some "T", doc_type := some "docx", contents := some contents },
      loading := false },
    pending := [] }

/-- A project as `getProject` returns it. -/
def projectOf (contents : List Section) : Project :=
  { title := some "T", doc_type := some "docx", contents := some contents }

/-- Three sections in order. -/
def secX : Section := mkSection 1 "X" 0

/-- The second of the three sections. -/
def secY : Section := mkSection 2 "Y" 1

/-- The third of the three sections. -/
def secZ : Section := mkSection 3 "Z" 2

/-- The page after `secX` was dragged to the end of `[secX, secY, secZ]` and the
`PUT .../reorder` for it went out. -/
def draggedSys : Sys :=
  { ui := (sysOf [{ secY with section_order := 0 }, { secZ with section_order := 1 },
                  { secX with section_order := 2 }]).ui,
    pending := [.putReorder [some 2, some 3, some 1]] }

/-- A section with generated text, as shown with its feedback and refine tools. -/
def secT : Section :=
  { mkSection 1 "X" 0 with content_text := some "text" }

/-- The page after Generate was clicked on the only section, numbered 9, and the
section was deleted before the generated text arrived. -/
def raceSys : Sys :=
  { ui := { (sysOf []).ui with generatingId := some (some 9) },
    pending := [.generateContent (some 9)] }

/-- The page on which a section was typed in and Add was clicked. -/
def addingSys : Sys :=
  { ui := { (sysOf [secX, secY]).ui with newSectionTitle := "Z", isAdding := true },
    pending := [.createContent "Z"] }

/-! ## `exportDocument` of `api.js`: the download filename -/

/-- The double quote character. -/
def quote : Char := Char.ofNat 34

/-- `value || fallback` for a string-or-undefined `value`: `undefined` and `''`
give the fallback. -/
def orElse (value : Option String) (fallback : String) : String :=
  match value with
  | none => fallback
  | some v => if v = "" then fallback else v

/-- The rest of `input` after `literal`, when `input` begins with `literal`. -/
def afterLiteral : List Char → List Char → Option (List Char)
  | [], rest => some rest
  | _ :: _, [] => none
  | c :: literal, d :: input => if c = d then afterLiteral literal input else none

/-- The regular expression `/filename="?([^"]+)"?/` tried at the start of `input`,
giving its capture group: after the literal `filename=` and one double quote, if
there is one, the longest run of characters other than the double quote, which
has to have at least one character. (When a quote is followed by no such
character, leaving the quote to `[^"]+` fails as well.) -/
def matchHere (input : List Char) : Option (List Char) :=
  match afterLiteral "filename=".toList input with
  | none => none
  | some rest =>
    let rest := match rest with
      | c :: tail => if c = quote then tail else c :: tail
      | [] => []
    let run := rest.takeWhile (fun c => c != quote)
    if run.isEmpty then none else some run

/-- The capture group of `contentDisposition.match(/filename="?([^"]+)"?/)`: the
regular expression is tried at every position from the left, and the first
position at which it matches gives the result; `none` is `null`. -/
def filenameMatch : List Char → Option (List Char)
  | [] => none
  | c :: input =>
    match matchHere (c :: input) with
    | some run => some run
    | none => filenameMatch input

/-- The variable `filename` of `exportDocument` after the header was looked at:
`null` without a header (or with an empty one) or without a match, and else
`filenameMatch[1]` (a match always has length 2: the regular expression has one
group). -/
def headerFilename (contentDisposition : Option String) : Option String :=
  if truthy contentDisposition then
    (filenameMatch (contentDisposition.getD "").toList).map String.mk
  else none

/-- The `download` attribute `exportDocument` sets on the link, for the `title`
and `docType` it is called with and the `content-disposition` header of the
response. -/
def exportDocument (title docType contentDisposition : Option String) : String :=
  let filename := headerFilename contentDisposition
  if !truthy filename then
    orElse title "document" ++ "." ++ orElse docType "docx"
  else if !(filename.getD "").toList.contains '.' then
    filename.getD "" ++ "." ++ orElse docType "docx"
  else filename.getD ""

/-- The header `attachment; filename="name"`, with the quotes. -/
def attachmentHeader (name : String) : String :=
  "attachment; filename=" ++ String.singleton quote ++ name ++ String.singleton quote

/-! ## Lemmas on the array operations -/

theorem section_order_withOrder (index : Nat) (item : Option Section) :
    (withOrder index item).section_order = Int.ofNat index := by
  cases item <;> rfl

theorem length_renumberFrom (index : Nat) (items : List (Option Section)) :
    (renumberFrom index items).length = items.length := by
  induction items generalizing index with
  | nil => rfl
  | cons item rest ih => simp [renumberFrom, ih]

theorem orders_renumberFrom (index : Nat) (items : List (Option Section)) :
    (renumberFrom index items).map (fun c => c.section_order)
      = (List.range' index items.length).map Int.ofNat := by
  induction items generalizing index with
  | nil => rfl
  | cons item rest ih =>
    simp only [renumberFrom, List.map_cons, List.length_cons, List.range'_succ, ih,
      section_order_withOrder]

theorem contiguous_reorderItems (contents : List Section) (source destination : Int) :
    Contiguous (reorderItems contents source destination) := by
  unfold Contiguous reorderItems
  rw [orders_renumberFrom, length_renumberFrom, List.range_eq_range']

theorem contiguous_appendContent {contents : List Section} {newContent : Section}
    (hc : Contiguous contents)
    (hn : newContent.section_order = Int.ofNat contents.length) :
    Contiguous (appendContent newContent contents) := by
  unfold Contiguous at hc ⊢
  simp [appendContent, List.range_succ, hc, hn]

theorem contiguous_take {contents : List Section} (hc : Contiguous contents) (m : Nat) :
    Contiguous (contents.take m) := by
  unfold Contiguous at hc ⊢
  rw [List.map_take, hc, ← List.map_take, List.take_range, List.length_take]

theorem contiguous_applyOp {contents : List Section} {op : StoreOp}
    (hc : Contiguous contents) (hk : keepsOrder contents op = true) :
    Contiguous (applyOp contents op) := by
  cases op with
  | add title newContent =>
    exact contiguous_appendContent hc (by simpa [keepsOrder] using hk)
  | delete contentId =>
    have h : removeContent contentId contents
        = contents.take (removeContent contentId contents).length := by
      simpa [keepsOrder] using hk
    show Contiguous (removeContent contentId contents)
    rw [h]
    exact contiguous_take hc _
  | reorder source destination => exact contiguous_reorderItems contents source destination

/-! ## Lemmas on the steps -/

theorem contents_eq_some {s : Sys} {contents : List Section}
    (h : s.contents = some contents) :
    ∃ p, s.ui.project = some p ∧ p.contents = some contents := by
  unfold Sys.contents at h
  cases hp : s.ui.project with
  | none => simp [hp] at h
  | some p => exact ⟨p, rfl, by simpa [hp] using h⟩

theorem setContents_eq {s : Sys} {contents : List Section} {p : Project}
    (hp : s.ui.project = some p) (hc : p.contents = some contents)
    (f : List Section → List Section) :
    setContents f s.ui
      = some { s.ui with project := some { p with contents := some (f contents) } } := by
  simp [setContents, hp, hc]

theorem step_response {s : Sys} {i : Nat} {r : Request} (h : s.pending[i]? = some r)
    (o : Outcome) :
    step s (.response i o) = resume { s with pending := s.pending.eraseIdx i } r o := by
  simp [step, h]

theorem perform_contents {s : Sys} {contents : List Section}
    (h : s.contents = some contents) (op : StoreOp) :
    ∃ s', perform s op = some s' ∧ s'.contents = some (applyOp contents op) := by
  obtain ⟨p, hp, hc⟩ := contents_eq_some h
  cases op with
  | add title newContent =>
    simp [perform, resume, setContents_eq hp hc, Sys.contents, applyOp]
  | delete contentId =>
    simp [perform, resume, setContents_eq hp hc, Sys.contents, applyOp]
  | reorder source destination =>
    simp [perform, onDragEnd, hp, hc, Sys.contents, applyOp, Sys.await]

theorem performAll_contiguous (ops : List StoreOp) :
    ∀ (s : Sys) (contents : List Section), s.contents = some contents →
      Contiguous contents → keepOrder contents ops = true →
      ∃ s' contents', performAll s ops = some s' ∧ s'.contents = some contents'
        ∧ Contiguous contents' := by
  induction ops with
  | nil => intro s contents h hc _; exact ⟨s, contents, rfl, h, hc⟩
  | cons op ops ih =>
    intro s contents h hc hk
    simp only [keepOrder, Bool.and_eq_true] at hk
    obtain ⟨s1, h1, hc1⟩ := perform_contents h op
    obtain ⟨s2, c2, h2, hc2, hcont⟩ := ih s1 _ hc1 (contiguous_applyOp hc hk.1) hk.2
    exact ⟨s2, c2, by simp [performAll, h1, h2], hc2, hcont⟩

theorem spliceStart_natCast (len n : Nat) (h : n ≤ len) : spliceStart len (n : Int) = n := by
  unfold spliceStart
  have h0 : ¬ ((n : Int) < 0) := by omega
  simp [h0, h]

theorem insertIdx_eq_take_append_drop {α : Type} (a : α) :
    ∀ (n : Nat) (l : List α), n ≤ l.length → l.insertIdx n a = l.take n ++ a :: l.drop n
  | 0, l, _ => by simp
  | n + 1, [], h => by simp at h
  | n + 1, b :: l, h => by
    simp [List.insertIdx_succ_cons, insertIdx_eq_take_append_drop a n l (by simpa using h)]

theorem getElem?_renumberFrom (items : List (Option Section)) :
    ∀ (index i : Nat),
      (renumberFrom index items)[i]? = items[i]?.map (withOrder (index + i)) := by
  induction items with
  | nil => intro index i; simp [renumberFrom]
  | cons item rest ih =>
    intro index i
    cases i with
    | zero => simp [renumberFrom]
    | succ i => simp [renumberFrom, ih, Nat.add_assoc, Nat.add_comm 1 i]

theorem renumberFrom_map_some (l : List Section) :
    renumberFrom 0 (l.map some)
      = l.mapIdx (fun position c => { c with section_order := Int.ofNat position }) := by
  symm
  rw [List.mapIdx_eq_iff]
  intro i
  rw [getElem?_renumberFrom]
  simp only [List.getElem?_map, Option.map_map, Nat.zero_add]
  cases l[i]? <;> rfl

theorem spliceItems_natCast (contents : List Section) (source dest : Nat)
    (hs : source < contents.length) (hd : dest < contents.length) :
    spliceItems contents source dest
      = ((contents.eraseIdx source).insertIdx dest contents[source]).map some := by
  have hlen : (List.take source (List.map some contents)
      ++ List.drop (source + 1) (List.map some contents)).length = contents.length - 1 := by
    simp; omega
  have hitem : ((List.map some contents).drop source).head?.join = some contents[source] := by
    simp [List.head?_drop, hs]
  unfold spliceItems
  simp only [List.length_map, spliceStart_natCast _ _ hs.le, hitem, hlen]
  rw [spliceStart_natCast _ _ (by omega)]
  rw [insertIdx_eq_take_append_drop _ _ _ (by rw [List.length_eraseIdx]; simp [hs]; omega)]
  simp [List.eraseIdx_eq_take_drop_succ, List.map_take, List.map_drop]

theorem reorderItems_eq_moveSpec (contents : List Section) (source dest : Nat)
    (hs : source < contents.length) (hd : dest < contents.length) :
    reorderItems contents source dest = moveSpec contents source dest := by
  unfold reorderItems moveSpec
  rw [spliceItems_natCast contents source dest hs hd, renumberFrom_map_some]
  simp [hs]

theorem onDragEnd_contents {s : Sys} {contents : List Section}
    (h : s.contents = some contents) (source destination : Int) :
    ∃ s', onDragEnd s source (some destination) = some s'
      ∧ s'.contents = some (reorderItems contents source destination) := by
  obtain ⟨p, hp, hc⟩ := contents_eq_some h
  simp [onDragEnd, hp, hc, Sys.contents, Sys.await]

/-! ## C1: order contiguity -/

/-- C1, the claim as stated fails: from `[X, Y, Z]` numbered 0, 1, 2, a drag of
`X` to the end followed by a successful delete of the section now first leaves
two sections numbered 1 and 2, not 0 and 1. -/
theorem order_contiguity_broken_by_delete :
    Contiguous [secX, secY, secZ]
    ∧ (run (sysOf [secX, secY, secZ])
        [.dragEnd 0 (some 2), .deleteSection (some 2) true, .response 1 .ack]).bind Sys.contents
      = some [{ secZ with section_order := 1 }, { secX with section_order := 2 }]
    ∧ ¬ Contiguous [{ secZ with section_order := 1 }, { secX with section_order := 2 }] := by
  decide

/-- C1 (amended): a drag always leaves position `i` holding `section_order` `i`,
whatever the numbering was; an add stores the returned section with the
`section_order` the backend gave it and a delete leaves the `section_order` of the
other sections as it was, so a list numbered 0..N-1 is numbered 0..M-1 after a
sequence of successful adds, deletes and drags in which every add returned the
current length as `section_order` and every delete took out trailing sections
only. -/
theorem order_contiguity_when_numbering_kept (s : Sys) (contents : List Section)
    (ops : List StoreOp) (h : s.contents = some contents) (hc : Contiguous contents)
    (hk : keepOrder contents ops = true) :
    (∃ s' contents', performAll s ops = some s' ∧ s'.contents = some contents'
        ∧ Contiguous contents')
    ∧ ∀ (t : Sys) (l : List Section) (source destination : Int), t.contents = some l →
        ∃ t' l', onDragEnd t source (some destination) = some t' ∧ t'.contents = some l'
          ∧ Contiguous l' := by
  refine ⟨performAll_contiguous ops s contents h hc hk, ?_⟩
  intro t l source destination ht
  obtain ⟨t', h1, h2⟩ := onDragEnd_contents ht source destination
  exact ⟨t', _, h1, h2, contiguous_reorderItems l source destination⟩

/-- C1 (amended), at `[X, Y, Z]`: drag `X` to the end, add a section the backend
numbered 3, delete it again. -/
theorem order_contiguity_when_numbering_kept_witness :
    Contiguous [secX, secY, secZ]
    ∧ keepOrder [secX, secY, secZ]
        [.reorder 0 2, .add "W" (mkSection 4 "W" 3), .delete (some 4)] = true
    ∧ ∃ s' contents', performAll (sysOf [secX, secY, secZ])
          [.reorder 0 2, .add "W" (mkSection 4 "W" 3), .delete (some 4)] = some s'
        ∧ s'.contents = some contents' ∧ Contiguous contents' :=
  ⟨by decide, by decide,
    (order_contiguity_when_numbering_kept (sysOf [secX, secY, secZ]) [secX, secY, secZ]
      [.reorder 0 2, .add "W" (mkSection 4 "W" 3), .delete (some 4)] rfl (by decide)
      (by decide)).1⟩

/-! ## C3: the optimistic reorder -/

/-- C3: with both indices inside the list, `onDragEnd` stores the list with the
element at `sourceIndex` removed and put back at `destIndex`, every element
numbered by its new position and otherwise unchanged, and in that step awaits
only the module import: no remote call has been made yet. -/
theorem onDragEnd_optimistic (s : Sys) (p : Project) (contents : List Section)
    (sourceIndex destIndex : Nat) (hp : s.ui.project = some p)
    (hc : p.contents = some contents) (hs : sourceIndex < contents.length)
    (hd : destIndex < contents.length) :
    onDragEnd s sourceIndex (some destIndex)
      = some
          { ui :=
              { s.ui with
                project := some { p with contents := some (moveSpec contents sourceIndex destIndex) } },
            pending :=
              s.pending ++
                [.importFirebase ((moveSpec contents sourceIndex destIndex).map (fun c => c.id))] } := by
  simp [onDragEnd, hp, hc, Sys.await, reorderItems_eq_moveSpec contents _ _ hs hd]

/-- C3, at `[X, Y, Z]` with `X` dragged from index 0 to index 2. -/
theorem onDragEnd_optimistic_witness :
    (0 : Nat) < [secX, secY, secZ].length ∧ (2 : Nat) < [secX, secY, secZ].length
    ∧ moveSpec [secX, secY, secZ] 0 2
        = [{ secY with section_order := 0 }, { secZ with section_order := 1 },
           { secX with section_order := 2 }]
    ∧ onDragEnd (sysOf [secX, secY, secZ]) (0 : Nat) (some ((2 : Nat) : Int))
      = some
          { ui :=
              { (sysOf [secX, secY, secZ]).ui with
                project :=
                  some { projectOf [secX, secY, secZ] with
                         contents := some (moveSpec [secX, secY, secZ] 0 2) } },
            pending :=
              (sysOf [secX, secY, secZ]).pending ++
                [.importFirebase ((moveSpec [secX, secY, secZ] 0 2).map (fun c => c.id))] } :=
  ⟨by decide, by decide, by decide,
    onDragEnd_optimistic (sysOf [secX, secY, secZ]) (projectOf [secX, secY, secZ])
      [secX, secY, secZ] 0 2 rfl rfl (by decide) (by decide)⟩

theorem compareOrder_le_zero_iff (a b : Section) :
    compareOrder a b ≤ 0 ↔ a.section_order ≤ b.section_order := by
  unfold compareOrder; omega

theorem sortContents_perm (contents : List Section) :
    (sortContents contents).Perm contents :=
  List.perm_insertionSort _ _

theorem sortContents_sorted (contents : List Section) :
    (sortContents contents).Sorted (fun a b => a.section_order ≤ b.section_order) := by
  have total : IsTotal Section (fun a b => compareOrder a b ≤ 0) :=
    ⟨fun a b => by simp only [compareOrder_le_zero_iff]; omega⟩
  have trans : IsTrans Section (fun a b => compareOrder a b ≤ 0) :=
    ⟨fun a b c => by simp only [compareOrder_le_zero_iff]; omega⟩
  have h := List.sorted_insertionSort (fun a b => compareOrder a b ≤ 0) contents
  exact List.Pairwise.imp (fun {a b} hab => (compareOrder_le_zero_iff a b).1 hab) h

theorem sortContents_of_sorted {contents : List Section}
    (h : contents.Sorted (fun a b => a.section_order ≤ b.section_order)) :
    sortContents contents = contents :=
  List.Sorted.insertionSort_eq
    (List.Pairwise.imp (fun {a b} hab => (compareOrder_le_zero_iff a b).2 hab) h)

theorem resume_getProject_contents (t : Sys) (data : Project) :
    ∃ t', resume t .getProject (.project data) = some t'
      ∧ t'.contents = data.contents.map sortContents := by
  refine ⟨_, rfl, ?_⟩
  cases hd : data.contents <;> simp [Sys.contents, hd]

/-! ## C2: reorder fencing -/

/-- C2, the claim as stated fails: drag A and then drag B are issued on
`[X, Y, Z]` and both `PUT`s are out; when A's `PUT` fails, a refetch is issued,
and its result replaces the list B had set. -/
theorem reorder_fence_missing :
    (run (sysOf [secX, secY, secZ])
        [.dragEnd 0 (some 2), .response 0 (.currentUser true), .response 0 .ack,
         .dragEnd 0 (some 1), .response 1 (.currentUser true), .response 1 .ack]).map
          (fun s => (s.contents, s.pending))
      = some (some [{ secZ with section_order := 0 }, { secY with section_order := 1 },
                    { secX with section_order := 2 }],
              [.putReorder [some 2, some 3, some 1], .putReorder [some 3, some 2, some 1]])
    ∧ (run (sysOf [secX, secY, secZ])
        [.dragEnd 0 (some 2), .response 0 (.currentUser true), .response 0 .ack,
         .dragEnd 0 (some 1), .response 1 (.currentUser true), .response 1 .ack,
         .response 0 .failure]).map (fun s => s.pending)
      = some [.putReorder [some 3, some 2, some 1], .getProject]
    ∧ (run (sysOf [secX, secY, secZ])
        [.dragEnd 0 (some 2), .response 0 (.currentUser true), .response 0 .ack,
         .dragEnd 0 (some 1), .response 1 (.currentUser true), .response 1 .ack,
         .response 0 .failure,
         .response 1 (.project (projectOf [secX, secY, secZ]))]).map
          (fun s => (s.contents, s.pending))
      = some (some [secX, secY, secZ], [.putReorder [some 3, some 2, some 1]]) := by
  decide

/-- C2 (amended): there is no fence. The success of a reorder `PUT`, superseded or
not, changes nothing and issues nothing; its failure, superseded or not, leaves
the component state as it is and issues a refetch; and when a refetch succeeds the
contents list is replaced by the fetched list, sorted by `section_order`. -/
theorem reorder_response_unfenced (s : Sys) (i : Nat) (ids : List ContentId)
    (h : s.pending[i]? = some (.putReorder ids)) :
    step s (.response i .ack) = some { s with pending := s.pending.eraseIdx i }
    ∧ step s (.response i .failure)
        = some { s with pending := s.pending.eraseIdx i ++ [.getProject] }
    ∧ ∀ (t : Sys) (j : Nat) (data : Project), t.pending[j]? = some .getProject →
        ∃ t', step t (.response j (.project data)) = some t'
          ∧ t'.contents = data.contents.map sortContents
          ∧ t'.pending = t.pending.eraseIdx j := by
  refine ⟨by rw [step_response h]; rfl, by rw [step_response h]; rfl, ?_⟩
  intro t j data ht
  rw [step_response ht]
  refine ⟨_, rfl, ?_, rfl⟩
  cases hd : data.contents <;> simp [Sys.contents, hd]

/-- C2 (amended), at the page on which two reorder `PUT`s are out: the older one
is answered. -/
theorem reorder_response_unfenced_witness :
    ({ draggedSys with pending := draggedSys.pending ++ [.putReorder [some 3, some 2, some 1]] }
        : Sys).pending[0]? = some (.putReorder [some 2, some 3, some 1])
    ∧ step { draggedSys with
              pending := draggedSys.pending ++ [.putReorder [some 3, some 2, some 1]] }
          (.response 0 .failure)
        = some { draggedSys with pending := [.putReorder [some 3, some 2, some 1], .getProject] } :=
  ⟨by decide,
    (reorder_response_unfenced
      { draggedSys with pending := draggedSys.pending ++ [.putReorder [some 3, some 2, some 1]] }
      0 [some 2, some 3, some 1] (by decide)).2.1⟩

/-! ## C4: rollback -/

/-- C4: when the reorder `PUT` fails a refetch is issued, and when the refetch
comes back the contents list is the fetched sections in ascending
`section_order`, whatever the list held before: a rearrangement of the fetched
list, and the fetched list itself when that is already in ascending order. -/
theorem rollback_restores_fetched (s t : Sys) (i j : Nat) (ids : List ContentId)
    (data : Project) (fetched : List Section)
    (h : s.pending[i]? = some (.putReorder ids))
    (ht : t.pending[j]? = some .getProject) (hd : data.contents = some fetched) :
    (∃ s', step s (.response i .failure) = some s' ∧ s'.ui = s.ui
        ∧ s'.pending = s.pending.eraseIdx i ++ [.getProject])
    ∧ (∃ t', step t (.response j (.project data)) = some t'
        ∧ t'.contents = some (sortContents fetched))
    ∧ (sortContents fetched).Perm fetched
    ∧ (sortContents fetched).Sorted (fun a b => a.section_order ≤ b.section_order)
    ∧ (fetched.Sorted (fun a b => a.section_order ≤ b.section_order) →
        sortContents fetched = fetched) := by
  refine ⟨⟨{ s with pending := s.pending.eraseIdx i ++ [.getProject] },
      by rw [step_response h]; rfl, rfl, rfl⟩, ?_, sortContents_perm _,
    sortContents_sorted _, sortContents_of_sorted⟩
  rw [step_response ht]
  exact ⟨_, rfl, by simp [Sys.contents, hd]⟩

/-- C4, at `[X, Y, Z]`: `X` is moved to index 2, the `PUT` fails, and the refetch
returns `[X, Y, Z]`. -/
theorem rollback_restores_fetched_witness :
    run (sysOf [secX, secY, secZ])
        [.dragEnd 0 (some 2), .response 0 (.currentUser true), .response 0 .ack]
      = some draggedSys
    ∧ draggedSys.contents
        = some [{ secY with section_order := 0 }, { secZ with section_order := 1 },
                { secX with section_order := 2 }]
    ∧ draggedSys.pending[0]? = some (.putReorder [some 2, some 3, some 1])
    ∧ (run draggedSys [.response 0 .failure]).map (fun s => s.pending) = some [.getProject]
    ∧ (run draggedSys [.response 0 .failure,
          .response 0 (.project (projectOf [secX, secY, secZ]))]).bind Sys.contents
        = some [secX, secY, secZ]
    ∧ sortContents [secX, secY, secZ] = [secX, secY, secZ] :=
  ⟨rfl, by decide, by decide, by decide, by decide,
    (rollback_restores_fetched draggedSys
      { draggedSys with pending := [.getProject] } 0 0 [some 2, some 3, some 1]
      (projectOf [secX, secY, secZ]) [secX, secY, secZ] (by decide) (by decide) rfl).2.2.2.2
      (by decide)⟩

theorem generateEnabled_of_busy {s : Sys} {k : ContentId} (h : s.ui.generatingId = some k) :
    generateEnabled s k = false := by
  unfold generateEnabled
  rw [Bool.and_eq_false_iff]
  right
  rw [List.any_eq_false]
  intro c _
  by_cases hc : c.id = k <;> simp [hc, h]

theorem refineEnabled_of_busy {s : Sys} {k : ContentId} (h : s.ui.refiningId = some k) :
    refineEnabled s k = false := by
  unfold refineEnabled
  rw [Bool.and_eq_false_iff]
  right
  rw [List.any_eq_false]
  intro c _
  by_cases hc : c.id = k <;> simp [hc, h]

theorem replaceContent_of_absent {contents : List Section} {k : ContentId}
    (h : ∀ c ∈ contents, c.id ≠ k) (updatedContent : Section) :
    replaceContent k updatedContent contents = contents := by
  unfold replaceContent
  conv_rhs => rw [← List.map_id contents]
  exact List.map_congr_left (fun c hc => by simp [h c hc])

theorem resume_generate_contents {s : Sys} {contents : List Section}
    (h : s.contents = some contents) (k : ContentId) (updatedContent : Section) :
    ∃ s', resume s (.generateContent k) (.content updatedContent) = some s'
      ∧ s'.contents = some (replaceContent k updatedContent contents) := by
  obtain ⟨p, hp, hc⟩ := contents_eq_some h
  simp [resume, setContents_eq hp hc, Sys.contents]

theorem resume_refine_contents {s : Sys} {contents : List Section}
    (h : s.contents = some contents) (k : ContentId) (prompt : Option String)
    (updatedContent : Section) :
    ∃ s', resume s (.refineContent k prompt) (.content updatedContent) = some s'
      ∧ s'.contents = some (replaceContent k updatedContent contents) := by
  obtain ⟨p, hp, hc⟩ := contents_eq_some h
  simp [resume, setContents_eq hp hc, Sys.contents]

theorem resume_create_contents {s : Sys} {contents : List Section}
    (h : s.contents = some contents) (title : String) (newContent : Section) :
    ∃ s', resume s (.createContent title) (.content newContent) = some s'
      ∧ s'.contents = some (appendContent newContent contents) := by
  obtain ⟨p, hp, hc⟩ := contents_eq_some h
  simp [resume, setContents_eq hp hc, Sys.contents]

theorem resume_delete_contents {s : Sys} {contents : List Section}
    (h : s.contents = some contents) (k : ContentId) :
    ∃ s', resume s (.deleteContent k) .ack = some s'
      ∧ s'.contents = some (removeContent k contents) := by
  obtain ⟨p, hp, hc⟩ := contents_eq_some h
  simp [resume, setContents_eq hp hc, Sys.contents]

theorem resume_feedback_contents {s : Sys} {contents : List Section}
    (h : s.contents = some contents) (k : ContentId) (feedback : Option String)
    (returned : Section) :
    ∃ s', resume s (.updateFeedback k feedback) (.content returned) = some s'
      ∧ s'.contents = some (patchFeedback k feedback contents) := by
  obtain ⟨p, hp, hc⟩ := contents_eq_some h
  simp [resume, setContents_eq hp hc, Sys.contents]

theorem resume_notes_contents {s : Sys} {contents : List Section}
    (h : s.contents = some contents) (k : ContentId) (notes : Option String)
    (returned : Section) :
    ∃ s', resume s (.updateNotes k notes) (.content returned) = some s'
      ∧ s'.contents = some (patchNotes k notes contents) := by
  obtain ⟨p, hp, hc⟩ := contents_eq_some h
  simp [resume, setContents_eq hp hc, Sys.contents]

/-! ## C5: per-section exclusivity -/

/-- C5, the claim as stated fails: with two sections 5 and 7 without text,
Generate is clicked on 5, then on 7, then on 5 again. The third click is taken
(the button of 5 is enabled again once `generatingId` is 7) and two generate calls
for section 5 are in flight. -/
theorem exclusivity_not_enforced :
    inFlight (clickGenerate (sysOf [mkSection 5 "A" 0, mkSection 7 "B" 1]) (some 5)) (some 5) = 1
    ∧ generateEnabled
        (clickGenerate (clickGenerate (sysOf [mkSection 5 "A" 0, mkSection 7 "B" 1]) (some 5))
          (some 7)) (some 5) = true
    ∧ (clickGenerate
        (clickGenerate (clickGenerate (sysOf [mkSection 5 "A" 0, mkSection 7 "B" 1]) (some 5))
          (some 7)) (some 5)).pending
      = [.generateContent (some 5), .generateContent (some 7), .generateContent (some 5)]
    ∧ inFlight
        (clickGenerate
          (clickGenerate (clickGenerate (sysOf [mkSection 5 "A" 0, mkSection 7 "B" 1]) (some 5))
            (some 7)) (some 5)) (some 5) = 2 := by
  decide

/-- C5 (amended): nothing is rejected as busy. `handleGenerate` makes no check:
every call sets `generatingId` to the id and issues the call, whatever is in
flight. `handleRefine` makes no busy check: with an empty prompt it returns
without a call, and with a prompt it sets `refiningId` and issues the call,
whatever is in flight. The only busy guard is the `disabled` flag of the buttons:
a click on Generate for `k` does nothing and issues no call while `generatingId`
is `k`, and a click on Refine for `k` does nothing while `refiningId` is `k` or
while the prompt of `k` is empty. A click on the shown Generate button of a
section whose id is not in `generatingId` is taken, and so is a click on the
shown Refine button of a section with a prompt whose id is not in `refiningId`,
whatever else is in flight: it issues the call and overwrites the slot. -/
theorem busy_slot_guards_last_started (s : Sys) (k : ContentId) :
    (s.ui.generatingId = some k → clickGenerate s k = s)
    ∧ (s.ui.refiningId = some k → clickRefine s k = s)
    ∧ (∀ (contents : List Section) (c : Section), s.ui.loading = false →
        s.contents = some contents → c ∈ contents → c.id = k →
        truthy c.content_text = false → s.ui.generatingId ≠ some k →
        clickGenerate s k
          = { ui := { s.ui with generatingId := some k },
              pending := s.pending ++ [.generateContent k] })
    ∧ (∀ (contents : List Section) (c : Section), s.ui.loading = false →
        s.contents = some contents → c ∈ contents → c.id = k →
        truthy c.content_text = true → truthy (s.ui.refinePrompts k) = true →
        s.ui.refiningId ≠ some k →
        clickRefine s k
          = { ui := { s.ui with refiningId := some k },
              pending := s.pending ++ [.refineContent k (s.ui.refinePrompts k)] })
    ∧ handleGenerate s k
        = { ui := { s.ui with generatingId := some k },
            pending := s.pending ++ [.generateContent k] }
    ∧ (truthy (s.ui.refinePrompts k) = true →
        handleRefine s k
          = { ui := { s.ui with refiningId := some k },
              pending := s.pending ++ [.refineContent k (s.ui.refinePrompts k)] })
    ∧ (truthy (s.ui.refinePrompts k) = false →
        handleRefine s k = s ∧ clickRefine s k = s) := by
  refine ⟨fun h => by simp [clickGenerate, generateEnabled_of_busy h],
    fun h => by simp [clickRefine, refineEnabled_of_busy h], ?_, ?_, rfl, ?_, ?_⟩
  · intro contents c hl hs hc hid ht hg
    have he : generateEnabled s k = true := by
      unfold generateEnabled
      simp only [hl, hs, Option.getD_some, Bool.not_false, Bool.true_and, List.any_eq_true]
      exact ⟨c, hc, by simp [hid, ht, hg]⟩
    simp [clickGenerate, he, handleGenerate, Sys.await]
  · intro contents c hl hs hc hid ht hp hr
    have he : refineEnabled s k = true := by
      unfold refineEnabled
      simp only [hl, hs, Option.getD_some, Bool.not_false, Bool.true_and, List.any_eq_true]
      exact ⟨c, hc, by simp [hid, ht, hp, hr]⟩
    simp [clickRefine, he, handleRefine, hp, Sys.await]
  · intro hp
    simp [handleRefine, hp, Sys.await]
  · intro hp
    have hr : handleRefine s k = s := by simp [handleRefine, hp]
    refine ⟨hr, ?_⟩
    unfold clickRefine
    split
    · exact hr
    · rfl

/-- C5 (amended), at a page where the generate for section 5 is the one started
last: a second click on it is dropped, a click on section 7 is taken; and at a
section with text but no prompt, where Refine does nothing. -/
theorem busy_slot_guards_last_started_witness :
    (clickGenerate (sysOf [mkSection 5 "A" 0, mkSection 7 "B" 1]) (some 5)).ui.generatingId
      = some (some 5)
    ∧ clickGenerate (clickGenerate (sysOf [mkSection 5 "A" 0, mkSection 7 "B" 1]) (some 5))
        (some 5)
      = clickGenerate (sysOf [mkSection 5 "A" 0, mkSection 7 "B" 1]) (some 5)
    ∧ (clickGenerate (clickGenerate (sysOf [mkSection 5 "A" 0, mkSection 7 "B" 1]) (some 5))
        (some 7)).pending
      = [.generateContent (some 5), .generateContent (some 7)]
    ∧ truthy ((sysOf [secT]).ui.refinePrompts (some 1)) = false
    ∧ handleRefine (sysOf [secT]) (some 1) = sysOf [secT]
    ∧ clickRefine (sysOf [secT]) (some 1) = sysOf [secT]
    ∧ (run (sysOf [secT]) [.changePrompt (some 1) "shorter", .refine (some 1)]).map
        (fun s => s.pending)
      = some [.refineContent (some 1) (some "shorter")] :=
  ⟨by decide,
    (busy_slot_guards_last_started
      (clickGenerate (sysOf [mkSection 5 "A" 0, mkSection 7 "B" 1]) (some 5)) (some 5)).1
      (by decide),
    by decide, by decide,
    ((busy_slot_guards_last_started (sysOf [secT]) (some 1)).2.2.2.2.2.2 (by decide)).1,
    ((busy_slot_guards_last_started (sysOf [secT]) (some 1)).2.2.2.2.2.2 (by decide)).2,
    by decide⟩

/-! ## C6: delete-race safety -/

/-- C6: when the contents list holds no section with id `k`, the arrival of the
section returned by a generate or a refine for `k` leaves the list as it is, so it
still holds no section with id `k`. -/
theorem update_of_deleted_section_is_noop (s : Sys) (contents : List Section)
    (k : ContentId) (i : Nat) (r : Request) (prompt : Option String)
    (updatedContent : Section) (h : s.contents = some contents)
    (habsent : ∀ c ∈ contents, c.id ≠ k) (hp : s.pending[i]? = some r)
    (hr : r = .generateContent k ∨ r = .refineContent k prompt) :
    ∃ s' contents', step s (.response i (.content updatedContent)) = some s'
      ∧ s'.contents = some contents' ∧ contents' = contents
      ∧ ∀ c ∈ contents', c.id ≠ k := by
  rw [step_response hp]
  have h' : ({ s with pending := s.pending.eraseIdx i } : Sys).contents = some contents := h
  rcases hr with hr | hr <;> subst hr
  · obtain ⟨s', h1, h2⟩ := resume_generate_contents h' k updatedContent
    exact ⟨s', contents, h1, by rw [h2, replaceContent_of_absent habsent], rfl, habsent⟩
  · obtain ⟨s', h1, h2⟩ := resume_refine_contents h' k prompt updatedContent
    exact ⟨s', contents, h1, by rw [h2, replaceContent_of_absent habsent], rfl, habsent⟩

/-- C6, at the race of the specification: Generate is started for section 9, the
section is deleted, and then the generated section arrives. -/
theorem update_of_deleted_section_is_noop_witness :
    run (sysOf [mkSection 9 "N" 0])
        [.generate (some 9), .deleteSection (some 9) true, .response 1 .ack]
      = some raceSys
    ∧ raceSys.contents = some []
    ∧ raceSys.pending[0]? = some (.generateContent (some 9))
    ∧ ∃ s' contents',
        step raceSys (.response 0 (.content { mkSection 9 "N" 0 with content_text := some "text" }))
          = some s'
        ∧ s'.contents = some contents' ∧ contents' = []
        ∧ ∀ c ∈ contents', c.id ≠ some 9 :=
  ⟨rfl, by decide, by decide,
    update_of_deleted_section_is_noop raceSys [] (some 9) 0 (.generateContent (some 9)) none
      { mkSection 9 "N" 0 with content_text := some "text" } rfl (by simp) (by decide)
      (Or.inl rfl)⟩

/-! ## C7: create is pessimistic -/

/-- C7: calling `handleAddSection` leaves the contents list as it is; the list
changes when the create call has succeeded, to the old list with the returned
section as its last element; when the create call fails the list is the one
before the call. -/
theorem create_is_pessimistic (s : Sys) (contents : List Section) (i : Nat)
    (title : String) (newContent : Section) (h : s.contents = some contents)
    (hp : s.pending[i]? = some (.createContent title)) :
    (handleAddSection s).contents = some contents
    ∧ (∃ s', step s (.response i (.content newContent)) = some s'
        ∧ s'.contents = some (contents ++ [newContent]))
    ∧ (∃ s', step s (.response i .failure) = some s' ∧ s'.contents = some contents) := by
  refine ⟨?_, ?_, ?_⟩
  · rw [← h]; unfold handleAddSection; split <;> rfl
  · rw [step_response hp]
    exact resume_create_contents (s := { s with pending := s.pending.eraseIdx i }) h title
      newContent
  · rw [step_response hp]
    exact ⟨_, rfl, h⟩

/-- C7, at a page holding `[X, Y]` on which a create call is awaited. -/
theorem create_is_pessimistic_witness :
    run (sysOf [secX, secY]) [.changeTitle "Z", .addSection] = some addingSys
    ∧ addingSys.contents = some [secX, secY]
    ∧ addingSys.pending[0]? = some (.createContent "Z")
    ∧ (∃ s', step addingSys (.response 0 (.content secZ)) = some s'
        ∧ s'.contents = some ([secX, secY] ++ [secZ]))
    ∧ (∃ s', step addingSys (.response 0 .failure) = some s'
        ∧ s'.contents = some [secX, secY]) :=
  ⟨rfl, by decide, by decide,
    (create_is_pessimistic addingSys [secX, secY] 0 "Z" secZ rfl (by decide)).2⟩

/-! ## C8: no partial application on failure -/

/-- C8: calling the generate, refine, set-feedback, save-notes or delete handler
leaves the project as it is, and when the remote call fails the component state
is the one before the failure, except that a failed generate clears
`generatingId` and a failed refine clears `refiningId`. -/
theorem failure_leaves_store (s : Sys) (i : Nat) (r : Request)
    (h : s.pending[i]? = some r) :
    (∀ k, r = .generateContent k →
      step s (.response i .failure)
        = some { ui := { s.ui with generatingId := none }, pending := s.pending.eraseIdx i })
    ∧ (∀ k prompt, r = .refineContent k prompt →
      step s (.response i .failure)
        = some { ui := { s.ui with refiningId := none }, pending := s.pending.eraseIdx i })
    ∧ (∀ k feedback, r = .updateFeedback k feedback →
      step s (.response i .failure) = some { s with pending := s.pending.eraseIdx i })
    ∧ (∀ k notes, r = .updateNotes k notes →
      step s (.response i .failure) = some { s with pending := s.pending.eraseIdx i })
    ∧ (∀ k, r = .deleteContent k →
      step s (.response i .failure) = some { s with pending := s.pending.eraseIdx i })
    ∧ ∀ (k : ContentId) (feedback : Option String) (confirmed : Bool),
        (handleGenerate s k).ui.project = s.ui.project
        ∧ (handleRefine s k).ui.project = s.ui.project
        ∧ (handleFeedback s k feedback).ui = s.ui
        ∧ (handleNotesSave s k).ui = s.ui
        ∧ (handleDeleteSection s k confirmed).ui = s.ui := by
  refine ⟨?_, ?_, ?_, ?_, ?_, ?_⟩
  · intro k hr; subst hr; rw [step_response h]; rfl
  · intro k prompt hr; subst hr; rw [step_response h]; rfl
  · intro k feedback hr; subst hr; rw [step_response h]; rfl
  · intro k notes hr; subst hr; rw [step_response h]; rfl
  · intro k hr; subst hr; rw [step_response h]; rfl
  · intro k feedback confirmed
    refine ⟨rfl, ?_, rfl, rfl, ?_⟩
    · simp only [handleRefine]; split <;> rfl
    · unfold handleDeleteSection; split <;> rfl

/-- C8, at `[X, Y, Z]` with a generate for `X` in flight that fails. -/
theorem failure_leaves_store_witness :
    (handleGenerate (sysOf [secX, secY, secZ]) (some 1)).pending[0]?
      = some (.generateContent (some 1))
    ∧ step (handleGenerate (sysOf [secX, secY, secZ]) (some 1)) (.response 0 .failure)
      = some
          { ui := { (handleGenerate (sysOf [secX, secY, secZ]) (some 1)).ui with
                    generatingId := none },
            pending := (handleGenerate (sysOf [secX, secY, secZ]) (some 1)).pending.eraseIdx 0 }
    ∧ (run (sysOf [secX, secY, secZ]) [.generate (some 1), .response 0 .failure]).bind
          Sys.contents
      = some [secX, secY, secZ] :=
  ⟨by decide,
    (failure_leaves_store (handleGenerate (sysOf [secX, secY, secZ]) (some 1)) 0
      (.generateContent (some 1)) (by decide)).1 (some 1) rfl,
    by decide⟩

/-! ## C9: remove -/

/-- C9, the claim as stated fails: a successful delete of `Y` from `[X, Y, Z]`
numbered 0, 1, 2 leaves `[X, Z]` numbered 0 and 2; the gap is not closed. -/
theorem delete_does_not_renumber :
    (run (sysOf [secX, secY, secZ])
        [.deleteSection (some 2) true, .response 0 .ack]).bind Sys.contents
      = some [secX, secZ]
    ∧ [secX, secZ].map (fun c => c.section_order) = [0, 2]
    ∧ ¬ Contiguous [secX, secZ] := by
  decide

/-- C9 (amended): after a successful delete of `k` the contents list is the
original list without the sections whose id is `k`; the remaining sections keep
their relative order and every field, `section_order` included, so the numbering
is not closed up. -/
theorem delete_removes_by_id (s : Sys) (contents : List Section) (k : ContentId)
    (i : Nat) (h : s.contents = some contents)
    (hp : s.pending[i]? = some (.deleteContent k)) :
    ∃ s' contents', step s (.response i .ack) = some s'
      ∧ s'.contents = some contents'
      ∧ contents' = contents.filter (fun c => decide (c.id ≠ k))
      ∧ contents'.Sublist contents
      ∧ (∀ c, c ∈ contents' ↔ c ∈ contents ∧ c.id ≠ k)
      ∧ s'.pending = s.pending.eraseIdx i := by
  obtain ⟨p, hproj, hc⟩ := contents_eq_some h
  rw [step_response hp]
  refine ⟨{ ui := { s.ui with project := some { p with contents := some (removeContent k contents) } },
            pending := s.pending.eraseIdx i }, removeContent k contents, ?_, ?_, rfl,
    List.filter_sublist _, ?_, rfl⟩
  · simp only [resume]
    rw [setContents_eq (s := { s with pending := s.pending.eraseIdx i }) hproj hc]
    rfl
  · simp [Sys.contents]
  · intro c; simp [removeContent]

/-- C9 (amended), at `[X, Y, Z]` with the delete of `Y` awaited. -/
theorem delete_removes_by_id_witness :
    (handleDeleteSection (sysOf [secX, secY, secZ]) (some 2) true).contents
      = some [secX, secY, secZ]
    ∧ (handleDeleteSection (sysOf [secX, secY, secZ]) (some 2) true).pending[0]?
      = some (.deleteContent (some 2))
    ∧ ∃ s' contents',
        step (handleDeleteSection (sysOf [secX, secY, secZ]) (some 2) true) (.response 0 .ack)
          = some s'
        ∧ s'.contents = some contents'
        ∧ contents' = [secX, secY, secZ].filter (fun c => decide (c.id ≠ some 2))
        ∧ contents'.Sublist [secX, secY, secZ]
        ∧ (∀ c, c ∈ contents' ↔ c ∈ [secX, secY, secZ] ∧ c.id ≠ some 2)
        ∧ s'.pending
          = (handleDeleteSection (sysOf [secX, secY, secZ]) (some 2) true).pending.eraseIdx 0 :=
  ⟨by decide, by decide,
    delete_removes_by_id (handleDeleteSection (sysOf [secX, secY, secZ]) (some 2) true)
      [secX, secY, secZ] (some 2) 0 rfl (by decide)⟩

/-! ## C10: how responses are applied -/

/-- C10, the claim as stated fails: feedback `like` is set on a section whose
returned copy carries `section_order` 4; the stored section is the old one with
`feedback` set, not the returned one. -/
theorem feedback_response_not_applied :
    (run (sysOf [secT])
        [.feedback (some 1) (some "like"),
         .response 0 (.content { secT with section_order := 4, feedback := some "like" })]).bind
          Sys.contents
      = some [{ secT with feedback := some "like" }]
    ∧ ({ secT with feedback := some "like" } : Section)
      ≠ { secT with section_order := 4, feedback := some "like" } := by
  decide

/-- C10 (amended): a successful generate or refine stores the returned section
itself at every position that held a section with the requested id; a successful
set-feedback or save-notes does not read the returned section: the stored section
is the one held before with `feedback` (resp. `user_notes`) set to the value that
was sent. Every other position keeps its section. -/
theorem response_application (s : Sys) (contents : List Section) (i : Nat) (r : Request)
    (returned : Section) (h : s.contents = some contents) (hp : s.pending[i]? = some r) :
    (∀ k prompt, r = .generateContent k ∨ r = .refineContent k prompt →
      ∃ s', step s (.response i (.content returned)) = some s'
        ∧ s'.contents = some (contents.map (fun c => if c.id = k then returned else c)))
    ∧ (∀ k feedback, r = .updateFeedback k feedback →
      ∃ s', step s (.response i (.content returned)) = some s'
        ∧ s'.contents
          = some (contents.map
              (fun c => if c.id = k then { c with feedback := feedback } else c)))
    ∧ (∀ k notes, r = .updateNotes k notes →
      ∃ s', step s (.response i (.content returned)) = some s'
        ∧ s'.contents
          = some (contents.map
              (fun c => if c.id = k then { c with user_notes := notes } else c))) := by
  have h' : ({ s with pending := s.pending.eraseIdx i } : Sys).contents = some contents := h
  rw [step_response hp]
  refine ⟨?_, ?_, ?_⟩
  · intro k prompt hr
    rcases hr with hr | hr <;> subst hr
    · exact resume_generate_contents h' k returned
    · exact resume_refine_contents h' k prompt returned
  · intro k feedback hr; subst hr
    exact resume_feedback_contents h' k feedback returned
  · intro k notes hr; subst hr
    exact resume_notes_contents h' k notes returned

/-- C10 (amended), at `[X, Y, Z]` with a generate for `X` in flight. -/
theorem response_application_witness :
    (handleGenerate (sysOf [secX, secY, secZ]) (some 1)).contents = some [secX, secY, secZ]
    ∧ (handleGenerate (sysOf [secX, secY, secZ]) (some 1)).pending[0]?
      = some (.generateContent (some 1))
    ∧ (∃ s', step (handleGenerate (sysOf [secX, secY, secZ]) (some 1))
          (.response 0 (.content secT)) = some s'
        ∧ s'.contents
          = some ([secX, secY, secZ].map (fun c => if c.id = some 1 then secT else c)))
    ∧ [secX, secY, secZ].map (fun c => if c.id = some 1 then secT else c)
      = [secT, secY, secZ] :=
  ⟨by decide, by decide,
    (response_application (handleGenerate (sysOf [secX, secY, secZ]) (some 1))
      [secX, secY, secZ] 0 (.generateContent (some 1)) secT rfl (by decide)).1 (some 1) none
      (Or.inl rfl),
    by decide⟩

theorem spliceStart_lt {len : Nat} {start : Int} (hlen : 0 < len) (h : start < len) :
    spliceStart len start < len := by
  unfold spliceStart
  split
  · have h2 : Int.ofNat len = (len : Int) := rfl
    omega
  · omega

theorem ids_renumberFrom (index : Nat) (items : List (Option Section)) :
    (renumberFrom index items).map (fun c => c.id)
      = items.map (fun item => item.bind (fun c => c.id)) := by
  induction items generalizing index with
  | nil => rfl
  | cons item rest ih =>
    simp only [renumberFrom, List.map_cons, ih]
    cases item <;> rfl

theorem take_cons_drop_perm {α : Type} (x : α) (d : Nat) (l : List α) :
    (l.take d ++ x :: l.drop d).Perm (x :: l) := by
  refine List.perm_middle.trans ?_
  rw [List.take_append_drop]

theorem spliceItems_perm (contents : List Section) (source destination : Int)
    (hne : contents ≠ []) (hs : source < contents.length) :
    (spliceItems contents source destination).Perm (contents.map some) := by
  have hlen : 0 < contents.length := List.length_pos.2 hne
  have hlt := spliceStart_lt hlen hs
  have hitem : ((List.map some contents).drop (spliceStart contents.length source)).head?.join
      = some (contents[spliceStart contents.length source]) := by
    simp [List.head?_drop, hlt]
  have hsplit : List.take (spliceStart contents.length source) contents
      ++ contents[spliceStart contents.length source]
        :: List.drop (spliceStart contents.length source + 1) contents = contents := by
    rw [← List.drop_eq_getElem_cons hlt, List.take_append_drop]
  unfold spliceItems
  simp only [List.length_map, hitem]
  refine (take_cons_drop_perm _ _ _).trans ?_
  refine List.perm_middle.symm.trans ?_
  rw [← List.map_take, ← List.map_drop, ← List.map_cons, ← List.map_append, hsplit]

theorem reorderItems_ids_perm (contents : List Section) (source destination : Int)
    (hne : contents ≠ []) (hs : source < contents.length) :
    ((reorderItems contents source destination).map (fun c => c.id)).Perm
      (contents.map (fun c => c.id)) := by
  unfold reorderItems
  rw [ids_renumberFrom]
  have h := (spliceItems_perm contents source destination hne hs).map
    (fun item : Option Section => item.bind (fun c => c.id))
  simpa [Function.comp_def] using h

/-! ## C11: reorder with indices out of range -/

/-- C11, the claim as stated fails: with source index 3 on `[X, Y, Z]` the first
splice takes nothing out and the second puts `undefined` in, so the stored list
has four entries, one of them without an id. -/
theorem reorder_out_of_range_adds_entry :
    ((run (sysOf [secX, secY, secZ]) [.dragEnd 3 (some 0)]).bind Sys.contents).map
        (fun l => l.map (fun c => c.id))
      = some [none, some 1, some 2, some 3]
    ∧ ¬ ([none, some 1, some 2, some 3] : List ContentId).Perm
        ([secX, secY, secZ].map (fun c => c.id)) := by
  refine ⟨by decide, fun h => ?_⟩
  have := h.length_eq
  simp at this

/-- C11 (amended): on a list that is not empty, for every source index below the
length (a negative one counts from the end, and one below `-N` is taken as 0) and
every destination index (clamped to the list by `splice`, a negative one counting
from the end), the reordered list has the same length and its ids are the ids of
the list before, each as often as before. -/
theorem reorder_permutes_ids (s : Sys) (contents : List Section) (source destination : Int)
    (h : s.contents = some contents) (hne : contents ≠ [])
    (hs : source < contents.length) :
    ∃ s' contents', onDragEnd s source (some destination) = some s'
      ∧ s'.contents = some contents'
      ∧ (contents'.map (fun c => c.id)).Perm (contents.map (fun c => c.id))
      ∧ contents'.length = contents.length := by
  obtain ⟨s', h1, h2⟩ := onDragEnd_contents h source destination
  have hperm := reorderItems_ids_perm contents source destination hne hs
  refine ⟨s', _, h1, h2, hperm, ?_⟩
  simpa using hperm.length_eq

/-- C11 (amended), at `[X, Y, Z]` with source index -1 and destination index 7. -/
theorem reorder_permutes_ids_witness :
    [secX, secY, secZ] ≠ [] ∧ (-1 : Int) < ([secX, secY, secZ].length : Int)
    ∧ (run (sysOf [secX, secY, secZ]) [.dragEnd (-1) (some 7)]).bind Sys.contents
      = some [{ secX with section_order := 0 }, { secY with section_order := 1 },
              { secZ with section_order := 2 }]
    ∧ ∃ s' contents', onDragEnd (sysOf [secX, secY, secZ]) (-1) (some 7) = some s'
      ∧ s'.contents = some contents'
      ∧ (contents'.map (fun c => c.id)).Perm ([secX, secY, secZ].map (fun c => c.id))
      ∧ contents'.length = [secX, secY, secZ].length :=
  ⟨by decide, by decide, by decide,
    reorder_permutes_ids (sysOf [secX, secY, secZ]) [secX, secY, secZ] (-1) 7 rfl (by decide)
      (by decide)⟩

theorem map_update_keeps_numbering {contents : List Section} (f : Section → Section)
    (hid : ∀ c ∈ contents, (f c).id = c.id)
    (hord : ∀ c ∈ contents, (f c).section_order = c.section_order)
    (hc : Contiguous contents) :
    (contents.map f).map (fun c => c.id) = contents.map (fun c => c.id)
      ∧ Contiguous (contents.map f) := by
  constructor
  · rw [List.map_map]
    exact List.map_congr_left (fun c hmem => hid c hmem)
  · unfold Contiguous at hc ⊢
    rw [List.map_map, List.length_map, ← hc]
    exact List.map_congr_left (fun c hmem => hord c hmem)

/-! ## C12: per-section updates and the numbering -/

/-- C12, the claim as stated fails: `X` is dragged to the end of `[X, Y, Z]`, so
`Y` is stored first with `section_order` 0; the generate for `Y` returns the
backend's copy, numbered 1, which is stored as it is at position 0. -/
theorem generate_response_breaks_numbering :
    (run (sysOf [secX, secY, secZ]) [.dragEnd 0 (some 2), .generate (some 2)]).bind
        Sys.contents
      = some [{ secY with section_order := 0 }, { secZ with section_order := 1 },
              { secX with section_order := 2 }]
    ∧ Contiguous [{ secY with section_order := 0 }, { secZ with section_order := 1 },
                  { secX with section_order := 2 }]
    ∧ (run (sysOf [secX, secY, secZ])
        [.dragEnd 0 (some 2), .generate (some 2),
         .response 1 (.content { secY with content_text := some "text" })]).bind Sys.contents
      = some [{ secY with content_text := some "text" }, { secZ with section_order := 1 },
              { secX with section_order := 2 }]
    ∧ ¬ Contiguous [{ secY with content_text := some "text" },
                    { secZ with section_order := 1 }, { secX with section_order := 2 }] := by
  decide

/-- C12 (amended): on a list whose `section_order` values equal the positions, a
successful set-feedback or save-notes leaves the same ids in the same positions
and `section_order` equal to position; a successful generate or refine does so
when the returned section carries the requested id and the `section_order` of the
section it replaces (the returned section is stored as it is). -/
theorem update_keeps_numbering (s : Sys) (contents : List Section) (i : Nat) (r : Request)
    (returned : Section) (h : s.contents = some contents) (hc : Contiguous contents)
    (hp : s.pending[i]? = some r)
    (hr : (∃ k feedback, r = .updateFeedback k feedback)
      ∨ (∃ k notes, r = .updateNotes k notes)
      ∨ ∃ k, (r = .generateContent k ∨ ∃ prompt, r = .refineContent k prompt)
          ∧ returned.id = k
          ∧ ∀ c ∈ contents, c.id = k → returned.section_order = c.section_order) :
    ∃ s' contents', step s (.response i (.content returned)) = some s'
      ∧ s'.contents = some contents'
      ∧ contents'.map (fun c => c.id) = contents.map (fun c => c.id)
      ∧ Contiguous contents' := by
  have h' : ({ s with pending := s.pending.eraseIdx i } : Sys).contents = some contents := h
  rw [step_response hp]
  rcases hr with ⟨k, feedback, hr⟩ | ⟨k, notes, hr⟩ | ⟨k, hr, hid, hord⟩
  · subst hr
    obtain ⟨s', h1, h2⟩ := resume_feedback_contents h' k feedback returned
    have hm := map_update_keeps_numbering
      (fun c => if c.id = k then { c with feedback := feedback } else c)
      (fun c _ => by dsimp only; split <;> rfl) (fun c _ => by dsimp only; split <;> rfl) hc
    exact ⟨s', _, h1, h2, hm.1, hm.2⟩
  · subst hr
    obtain ⟨s', h1, h2⟩ := resume_notes_contents h' k notes returned
    have hm := map_update_keeps_numbering
      (fun c => if c.id = k then { c with user_notes := notes } else c)
      (fun c _ => by dsimp only; split <;> rfl) (fun c _ => by dsimp only; split <;> rfl) hc
    exact ⟨s', _, h1, h2, hm.1, hm.2⟩
  · have hm := map_update_keeps_numbering
      (fun c => if c.id = k then returned else c)
      (fun c _ => by dsimp only; split <;> simp_all)
      (fun c hmem => by
        dsimp only
        split
        · exact hord c hmem (by assumption)
        · rfl) hc
    rcases hr with hr | ⟨prompt, hr⟩ <;> subst hr
    · obtain ⟨s', h1, h2⟩ := resume_generate_contents h' k returned
      exact ⟨s', _, h1, h2, hm.1, hm.2⟩
    · obtain ⟨s', h1, h2⟩ := resume_refine_contents h' k prompt returned
      exact ⟨s', _, h1, h2, hm.1, hm.2⟩

/-- C12 (amended), at `[X, Y, Z]` with a generate for `Y` in flight that returns
`Y` with its text, numbered 1. -/
theorem update_keeps_numbering_witness :
    Contiguous [secX, secY, secZ]
    ∧ (handleGenerate (sysOf [secX, secY, secZ]) (some 2)).pending[0]?
      = some (.generateContent (some 2))
    ∧ ∃ s' contents',
        step (handleGenerate (sysOf [secX, secY, secZ]) (some 2))
          (.response 0 (.content { secY with content_text := some "text" })) = some s'
        ∧ s'.contents = some contents'
        ∧ contents'.map (fun c => c.id) = [secX, secY, secZ].map (fun c => c.id)
        ∧ Contiguous contents' :=
  ⟨by decide, by decide,
    update_keeps_numbering (handleGenerate (sysOf [secX, secY, secZ]) (some 2))
      [secX, secY, secZ] 0 (.generateContent (some 2)) { secY with content_text := some "text" }
      rfl (by decide) (by decide)
      (Or.inr (Or.inr ⟨some 2, Or.inl rfl, rfl, by decide⟩))⟩

/-! ## C13: busy tracking -/

/-- C13, the claim as stated fails: Generate is started on section 5 and then on
section 7. While both are in flight section 5 is not shown as busy; and when the
generate of 5 fails, section 7, still in flight, is no longer shown as busy. -/
theorem busy_flag_is_not_per_section :
    inFlight (handleGenerate (handleGenerate (sysOf [mkSection 5 "A" 0, mkSection 7 "B" 1])
        (some 5)) (some 7)) (some 5) = 1
    ∧ reportsGenerating (handleGenerate (handleGenerate
        (sysOf [mkSection 5 "A" 0, mkSection 7 "B" 1]) (some 5)) (some 7)) (some 5) = false
    ∧ (run (sysOf [mkSection 5 "A" 0, mkSection 7 "B" 1])
        [.generate (some 5), .generate (some 7), .response 0 .failure]).map
          (fun s => (inFlight s (some 7), reportsGenerating s (some 7)))
      = some (1, false) := by
  decide

/-- C13 (amended): busy is one slot per kind, not one flag per section. Starting a
generate on `k` makes `k` the only section shown as generating, whatever was in
flight; when any generate settles, with a result or a failure, no section is shown
as generating any more. Refine does the same with its own slot, once a prompt is
there. -/
theorem busy_is_single_slot (s : Sys) (contents : List Section) (i : Nat) (r : Request)
    (k : ContentId) (returned : Section) (h : s.contents = some contents)
    (hp : s.pending[i]? = some r) :
    (∀ j, reportsGenerating (handleGenerate s k) j = true ↔ j = k)
    ∧ (truthy (s.ui.refinePrompts k) = true →
        ∀ j, reportsRefining (handleRefine s k) j = true ↔ j = k)
    ∧ ((∃ k', r = .generateContent k') →
        (∃ s', step s (.response i .failure) = some s'
          ∧ ∀ j, reportsGenerating s' j = false)
        ∧ ∃ s', step s (.response i (.content returned)) = some s'
          ∧ ∀ j, reportsGenerating s' j = false)
    ∧ ((∃ k' prompt, r = .refineContent k' prompt) →
        (∃ s', step s (.response i .failure) = some s'
          ∧ ∀ j, reportsRefining s' j = false)
        ∧ ∃ s', step s (.response i (.content returned)) = some s'
          ∧ ∀ j, reportsRefining s' j = false) := by
  obtain ⟨p, hproj, hc⟩ := contents_eq_some h
  refine ⟨?_, ?_, ?_, ?_⟩
  · intro j
    simp [reportsGenerating, handleGenerate, Sys.await, eq_comm]
  · intro ht j
    simp [reportsRefining, handleRefine, ht, Sys.await, eq_comm]
  · rintro ⟨k', hr⟩
    subst hr
    rw [step_response hp, step_response hp]
    refine ⟨⟨_, rfl, fun j => by simp [reportsGenerating]⟩, ?_⟩
    simp only [resume]
    rw [setContents_eq (s := { s with pending := s.pending.eraseIdx i }) hproj hc]
    exact ⟨_, rfl, fun j => by simp [reportsGenerating]⟩
  · rintro ⟨k', prompt, hr⟩
    subst hr
    rw [step_response hp, step_response hp]
    refine ⟨⟨_, rfl, fun j => by simp [reportsRefining]⟩, ?_⟩
    simp only [resume]
    rw [setContents_eq (s := { s with pending := s.pending.eraseIdx i }) hproj hc]
    exact ⟨_, rfl, fun j => by simp [reportsRefining]⟩

/-- C13 (amended), at two sections with the generates of both in flight: the
older one fails. -/
theorem busy_is_single_slot_witness :
    (handleGenerate (handleGenerate (sysOf [mkSection 5 "A" 0, mkSection 7 "B" 1]) (some 5))
        (some 7)).pending[0]? = some (.generateContent (some 5))
    ∧ ∃ s', step (handleGenerate (handleGenerate
          (sysOf [mkSection 5 "A" 0, mkSection 7 "B" 1]) (some 5)) (some 7))
          (.response 0 .failure) = some s'
        ∧ ∀ j, reportsGenerating s' j = false :=
  ⟨by decide,
    ((busy_is_single_slot
      (handleGenerate (handleGenerate (sysOf [mkSection 5 "A" 0, mkSection 7 "B" 1]) (some 5))
        (some 7))
      [mkSection 5 "A" 0, mkSection 7 "B" 1] 0 (.generateContent (some 5)) (some 5)
      (mkSection 5 "A" 0) rfl (by decide)).2.2.1 ⟨some 5, rfl⟩).1⟩

/-! ## C14: empty title -/

/-- C14: with an empty title `handleAddSection` returns at once: no create call is
awaited and the whole component state, contents list, title input and adding flag
included, is the one before. -/
theorem empty_title_rejected (s : Sys) (h : s.ui.newSectionTitle = "") :
    handleAddSection s = s
    ∧ step s .addSection = some s
    ∧ (handleAddSection s).pending = s.pending
    ∧ (handleAddSection s).contents = s.contents
    ∧ (handleAddSection s).ui.newSectionTitle = s.ui.newSectionTitle
    ∧ (handleAddSection s).ui.isAdding = s.ui.isAdding := by
  have h0 : handleAddSection s = s := by simp [handleAddSection, h]
  refine ⟨h0, ?_, ?_, ?_, ?_, ?_⟩
  · simp [step, h0]
  all_goals rw [h0]

/-- C14, at the page holding `[X, Y, Z]` with the title input empty. -/
theorem empty_title_rejected_witness :
    (sysOf [secX, secY, secZ]).ui.newSectionTitle = ""
    ∧ handleAddSection (sysOf [secX, secY, secZ]) = sysOf [secX, secY, secZ]
    ∧ (handleAddSection (sysOf [secX, secY, secZ])).pending = [] :=
  ⟨rfl, (empty_title_rejected (sysOf [secX, secY, secZ]) rfl).1, by decide⟩

theorem filter_orderedInsert (v : Int) (a : Section) (l : List Section) :
    (List.orderedInsert (fun a b => compareOrder a b ≤ 0) a l).filter
        (fun c => decide (c.section_order = v))
      = (a :: l).filter (fun c => decide (c.section_order = v)) := by
  induction l with
  | nil => simp
  | cons b l ih =>
    by_cases hab : compareOrder a b ≤ 0
    · simp [List.orderedInsert, hab]
    · have hlt : b.section_order < a.section_order := by
        have := (compareOrder_le_zero_iff a b).not.1 hab
        omega
      simp only [List.orderedInsert, hab, if_false]
      by_cases ha : a.section_order = v
      · have hb : ¬ b.section_order = v := by omega
        rw [List.filter_cons_of_neg (by simpa using hb), ih]
        simp [List.filter_cons, ha, hb]
      · by_cases hb : b.section_order = v
        · rw [List.filter_cons_of_pos (by simpa using hb), ih]
          simp [List.filter_cons, ha, hb]
        · rw [List.filter_cons_of_neg (by simpa using hb), ih]
          simp [List.filter_cons, ha, hb]

theorem sortContents_stable (v : Int) (contents : List Section) :
    (sortContents contents).filter (fun c => decide (c.section_order = v))
      = contents.filter (fun c => decide (c.section_order = v)) := by
  induction contents with
  | nil => rfl
  | cons a l ih =>
    have h : sortContents (a :: l)
        = List.orderedInsert (fun a b => compareOrder a b ≤ 0) a (sortContents l) := rfl
    rw [h, filter_orderedInsert]
    simp only [List.filter_cons, ih]

theorem step_getProject {t : Sys} {j : Nat} {data : Project} {fetched : List Section}
    (ht : t.pending[j]? = some .getProject) (hd : data.contents = some fetched) :
    ∃ t', step t (.response j (.project data)) = some t'
      ∧ t'.contents = some (sortContents fetched) := by
  rw [step_response ht]
  exact ⟨_, rfl, by simp [Sys.contents, hd]⟩

theorem contiguous_sortContents_iff (fetched : List Section) :
    Contiguous (sortContents fetched)
      ↔ (fetched.map (fun c => c.section_order)).Perm
          ((List.range fetched.length).map Int.ofNat) := by
  have hperm := sortContents_perm fetched
  have hlen : (sortContents fetched).length = fetched.length := hperm.length_eq
  constructor
  · intro hc
    unfold Contiguous at hc
    rw [hlen] at hc
    rw [← hc]
    exact (hperm.map _).symm
  · intro hp
    unfold Contiguous
    rw [hlen]
    haveI : IsAntisymm Int (fun a b => a ≤ b) := ⟨fun a b h1 h2 => Int.le_antisymm h1 h2⟩
    refine List.eq_of_perm_of_sorted (r := fun a b : Int => a ≤ b) ((hperm.map _).trans hp) ?_ ?_
    · exact List.pairwise_map.2 (sortContents_sorted fetched)
    · exact List.Pairwise.map Int.ofNat (fun a b hab => Int.ofNat_le.2 hab)
        (List.sorted_le_range fetched.length)

/-! ## C15: the listing is sorted -/

/-- C15: when a fetch comes back with a section list, the stored contents are a
rearrangement of the returned sections in non-decreasing `section_order`, and for
every value of `section_order` the stored sections carrying it are the returned
sections carrying it, in the order in which they were returned. -/
theorem fetch_stores_sorted_listing (t : Sys) (j : Nat) (data : Project)
    (fetched : List Section) (ht : t.pending[j]? = some .getProject)
    (hd : data.contents = some fetched) :
    ∃ t' stored, step t (.response j (.project data)) = some t'
      ∧ t'.contents = some stored
      ∧ stored.Perm fetched
      ∧ stored.Sorted (fun a b => a.section_order ≤ b.section_order)
      ∧ ∀ v : Int, stored.filter (fun c => decide (c.section_order = v))
          = fetched.filter (fun c => decide (c.section_order = v)) := by
  obtain ⟨t', h1, h2⟩ := step_getProject ht hd
  exact ⟨t', _, h1, h2, sortContents_perm _, sortContents_sorted _,
    fun v => sortContents_stable v fetched⟩

/-- C15, at the first fetch of the page, returning `Z`, a second section numbered
0, and `X`. -/
theorem fetch_stores_sorted_listing_witness :
    (fetchProject { ui := EditorState.initial, pending := [] }).pending[0]? = some .getProject
    ∧ (run { ui := EditorState.initial, pending := [] }
        [.mount, .response 0 (.project (projectOf [secZ, mkSection 4 "W" 0, secX]))]).bind
          Sys.contents
      = some [mkSection 4 "W" 0, secX, secZ]
    ∧ ∃ t' stored,
        step (fetchProject { ui := EditorState.initial, pending := [] })
          (.response 0 (.project (projectOf [secZ, mkSection 4 "W" 0, secX]))) = some t'
        ∧ t'.contents = some stored
        ∧ stored.Perm [secZ, mkSection 4 "W" 0, secX]
        ∧ stored.Sorted (fun a b => a.section_order ≤ b.section_order)
        ∧ ∀ v : Int, stored.filter (fun c => decide (c.section_order = v))
            = [secZ, mkSection 4 "W" 0, secX].filter (fun c => decide (c.section_order = v)) :=
  ⟨by decide, by decide,
    fetch_stores_sorted_listing (fetchProject { ui := EditorState.initial, pending := [] }) 0
      (projectOf [secZ, mkSection 4 "W" 0, secX]) [secZ, mkSection 4 "W" 0, secX] (by decide)
      rfl⟩

/-! ## C16: what a refetch does to the numbering -/

/-- C16, the claim as stated fails: a fetch returning `Z` numbered 2 and `X`
numbered 0 stores `[X, Z]` numbered 0 and 2: the values are the fetched ones, not
the positions. -/
theorem refetch_does_not_renumber :
    (run { ui := EditorState.initial, pending := [] }
        [.mount, .response 0 (.project (projectOf [secZ, secX]))]).bind Sys.contents
      = some [secX, secZ]
    ∧ [secX, secZ].map (fun c => c.section_order) = [0, 2]
    ∧ ¬ Contiguous [secX, secZ] := by
  decide

/-- C16 (amended): a fetch that comes back with a section list stores those
sections sorted by `section_order`, each with the `section_order` it was returned
with; nothing is renumbered. So every stored section has its position as
`section_order` exactly when the returned values are 0..N-1, each once, in any
order. -/
theorem refetch_keeps_fetched_numbering (t : Sys) (j : Nat) (data : Project)
    (fetched : List Section) (ht : t.pending[j]? = some .getProject)
    (hd : data.contents = some fetched) :
    ∃ t' stored, step t (.response j (.project data)) = some t'
      ∧ t'.contents = some stored
      ∧ stored = sortContents fetched
      ∧ (∀ c, c ∈ stored ↔ c ∈ fetched)
      ∧ (Contiguous stored
          ↔ (fetched.map (fun c => c.section_order)).Perm
              ((List.range fetched.length).map Int.ofNat)) := by
  obtain ⟨t', h1, h2⟩ := step_getProject ht hd
  exact ⟨t', _, h1, h2, rfl, fun c => (sortContents_perm fetched).mem_iff,
    contiguous_sortContents_iff fetched⟩

/-- C16 (amended), at a refetch after a failed reorder that returns `Z`, `X`, `Y`
numbered 2, 0, 1. -/
theorem refetch_keeps_fetched_numbering_witness :
    (fetchProject draggedSys).pending[1]? = some .getProject
    ∧ (run (fetchProject draggedSys)
        [.response 1 (.project (projectOf [secZ, secX, secY]))]).bind Sys.contents
      = some [secX, secY, secZ]
    ∧ ∃ t' stored,
        step (fetchProject draggedSys) (.response 1 (.project (projectOf [secZ, secX, secY])))
          = some t'
        ∧ t'.contents = some stored
        ∧ stored = sortContents [secZ, secX, secY]
        ∧ (∀ c, c ∈ stored ↔ c ∈ [secZ, secX, secY])
        ∧ (Contiguous stored
            ↔ ([secZ, secX, secY].map (fun c => c.section_order)).Perm
                ((List.range [secZ, secX, secY].length).map Int.ofNat)) :=
  ⟨by decide, by decide,
    refetch_keeps_fetched_numbering (fetchProject draggedSys) 1
      (projectOf [secZ, secX, secY]) [secZ, secX, secY] (by decide) rfl⟩

theorem mem_renumberFrom {c' : Section} {items : List (Option Section)} :
    ∀ {index : Nat}, c' ∈ renumberFrom index items →
      ∃ item ∈ items, ∃ j, c' = withOrder j item := by
  induction items with
  | nil => intro index h; simp [renumberFrom] at h
  | cons item rest ih =>
    intro index h
    simp only [renumberFrom, List.mem_cons] at h
    rcases h with h | h
    · exact ⟨item, List.mem_cons_self _ _, index, h⟩
    · obtain ⟨it, hit, j, hj⟩ := ih h
      exact ⟨it, List.mem_cons_of_mem _ hit, j, hj⟩

theorem mem_spliceItems {item : Option Section} {contents : List Section}
    {source destination : Int} (h : item ∈ spliceItems contents source destination) :
    item = none ∨ ∃ c ∈ contents, item = some c := by
  have hsub : ∀ x : Option Section, x ∈ List.map some contents → ∃ c ∈ contents, x = some c := by
    intro x hx
    obtain ⟨c, hc, rfl⟩ := List.mem_map.1 hx
    exact ⟨c, hc, rfl⟩
  unfold spliceItems at h
  simp only [List.length_map, List.mem_append, List.mem_cons] at h
  rcases h with h | h | h
  · rcases List.mem_append.1 (List.mem_of_mem_take h) with h | h
    · exact Or.inr (hsub _ (List.mem_of_mem_take h))
    · exact Or.inr (hsub _ (List.mem_of_mem_drop h))
  · cases hh : (List.drop (spliceStart contents.length source) (List.map some contents)).head? with
    | none => left; simp [h, hh]
    | some x =>
      have hx : x ∈ List.map some contents :=
        List.mem_of_mem_drop (List.mem_of_mem_head? hh)
      rw [hh] at h
      right
      rw [h]
      exact hsub x hx
  · rcases List.mem_append.1 (List.mem_of_mem_drop h) with h | h
    · exact Or.inr (hsub _ (List.mem_of_mem_take h))
    · exact Or.inr (hsub _ (List.mem_of_mem_drop h))

theorem mem_reorderItems {c' : Section} {contents : List Section} {source destination : Int}
    (h : c' ∈ reorderItems contents source destination) :
    (∃ c ∈ contents, c.id = c'.id ∧ c.content_text = c'.content_text)
      ∨ (c'.id = none ∧ c'.content_text = none) := by
  obtain ⟨item, hitem, j, rfl⟩ := mem_renumberFrom h
  rcases mem_spliceItems hitem with rfl | ⟨c, hc, rfl⟩
  · exact Or.inr ⟨rfl, rfl⟩
  · exact Or.inl ⟨c, hc, rfl, rfl⟩

theorem mem_replaceContent {c' : Section} {k : ContentId} {updatedContent : Section}
    {contents : List Section} (h : c' ∈ replaceContent k updatedContent contents) :
    c' ∈ contents ∨ (c' = updatedContent ∧ ∃ c ∈ contents, c.id = k) := by
  obtain ⟨c, hc, rfl⟩ := List.mem_map.1 h
  by_cases hk : c.id = k
  · exact Or.inr ⟨by simp [hk], c, hc, hk⟩
  · exact Or.inl (by simpa [hk] using hc)

theorem mem_patchFeedback {c' : Section} {k : ContentId} {feedback : Option String}
    {contents : List Section} (h : c' ∈ patchFeedback k feedback contents) :
    ∃ c ∈ contents, c.id = c'.id ∧ c.content_text = c'.content_text := by
  obtain ⟨c, hc, rfl⟩ := List.mem_map.1 h
  refine ⟨c, hc, ?_, ?_⟩ <;> split <;> rfl

theorem mem_patchNotes {c' : Section} {k : ContentId} {notes : Option String}
    {contents : List Section} (h : c' ∈ patchNotes k notes contents) :
    ∃ c ∈ contents, c.id = c'.id ∧ c.content_text = c'.content_text := by
  obtain ⟨c, hc, rfl⟩ := List.mem_map.1 h
  refine ⟨c, hc, ?_, ?_⟩ <;> split <;> rfl

theorem contents_handleRefine (s : Sys) (k : ContentId) :
    (handleRefine s k).contents = s.contents := by
  simp only [handleRefine]; split <;> rfl

theorem contents_handleAddSection (s : Sys) : (handleAddSection s).contents = s.contents := by
  simp only [handleAddSection]; split <;> rfl

theorem contents_handleDeleteSection (s : Sys) (k : ContentId) (confirmed : Bool) :
    (handleDeleteSection s k confirmed).contents = s.contents := by
  simp only [handleDeleteSection]; split <;> rfl

theorem contents_toggleNotes (s : Sys) (k : ContentId) (currentNotes : Option String) :
    (toggleNotes s k currentNotes).contents = s.contents := by
  simp only [toggleNotes]; split <;> rfl

/-! ## C17: when `content_text` changes -/

/-- C17, the claim as stated fails: on a page holding `X` without text a drag is
made and the module import fails, so the project is refetched; the fetch returns
`X` with text, which is stored, and no generate or refine was ever started. -/
theorem refetch_changes_content_text :
    (run (sysOf [secX])
        [.dragEnd 0 (some 0), .response 0 .failure,
         .response 0 (.project (projectOf [secT]))]).bind Sys.contents
      = some [secT]
    ∧ secX.id = secT.id ∧ secX.content_text = none ∧ secT.content_text = some "text" := by
  decide

/-- C17 (amended): `content_text` is never set optimistically. After any step,
either the whole project was replaced by a successful fetch, or every stored
section is one of: a section with the id and the `content_text` of a section
stored before; the section without id and without text that a drag builds from a
missing element; the section returned by a successful generate or refine for an
id that was stored, or by a successful create. So reorder, set-feedback,
save-notes, delete and `toggleNotes` leave the `content_text` of every section
that remains as it was. -/
theorem content_text_frame (s s' : Sys) (e : Event) (contents contents' : List Section)
    (h : s.contents = some contents) (hs : step s e = some s')
    (h' : s'.contents = some contents') :
    (∃ i data, e = .response i (.project data) ∧ s.pending[i]? = some .getProject)
    ∨ ∀ c' ∈ contents',
        (∃ c ∈ contents, c.id = c'.id ∧ c.content_text = c'.content_text)
        ∨ (c'.id = none ∧ c'.content_text = none
            ∧ ∃ source destination, e = .dragEnd source (some destination))
        ∨ ∃ i returned, e = .response i (.content returned) ∧ c' = returned
            ∧ ((∃ k, (s.pending[i]? = some (.generateContent k)
                      ∨ ∃ prompt, s.pending[i]? = some (.refineContent k prompt))
                  ∧ ∃ c ∈ contents, c.id = k)
               ∨ ∃ title, s.pending[i]? = some (.createContent title)) := by
  have same : ∀ t : Sys, some t = some s' → t.contents = s.contents →
      ∀ c' ∈ contents', ∃ c ∈ contents, c.id = c'.id ∧ c.content_text = c'.content_text := by
    intro t hst ht c' hc'
    cases hst
    rw [ht, h] at h'
    cases h'
    exact ⟨c', hc', rfl, rfl⟩
  have moved : ∀ (t : Sys) (l : List Section), some t = some s' → t.contents = some l →
      contents' = l := by
    intro t l hst ht
    cases hst
    rw [ht] at h'
    cases h'
    rfl
  cases e with
  | mount => exact Or.inr fun c' hc' => Or.inl (same (fetchProject s) hs rfl c' hc')
  | generate k => exact Or.inr fun c' hc' => Or.inl (same (handleGenerate s k) hs rfl c' hc')
  | refine k =>
    exact Or.inr fun c' hc' =>
      Or.inl (same (handleRefine s k) hs (contents_handleRefine s k) c' hc')
  | addSection =>
    exact Or.inr fun c' hc' =>
      Or.inl (same (handleAddSection s) hs (contents_handleAddSection s) c' hc')
  | deleteSection k confirmed =>
    exact Or.inr fun c' hc' =>
      Or.inl (same (handleDeleteSection s k confirmed) hs
        (contents_handleDeleteSection s k confirmed) c' hc')
  | feedback k feedback =>
    exact Or.inr fun c' hc' => Or.inl (same (handleFeedback s k feedback) hs rfl c' hc')
  | notesSave k => exact Or.inr fun c' hc' => Or.inl (same (handleNotesSave s k) hs rfl c' hc')
  | toggleNotes k currentNotes =>
    exact Or.inr fun c' hc' =>
      Or.inl (same (toggleNotes s k currentNotes) hs (contents_toggleNotes s k currentNotes)
        c' hc')
  | changeTitle value => exact Or.inr fun c' hc' => Or.inl (same _ hs rfl c' hc')
  | changePrompt k value => exact Or.inr fun c' hc' => Or.inl (same _ hs rfl c' hc')
  | changeNotes k value => exact Or.inr fun c' hc' => Or.inl (same _ hs rfl c' hc')
  | dragEnd source destination =>
    cases destination with
    | none => exact Or.inr fun c' hc' => Or.inl (same s hs rfl c' hc')
    | some dest =>
      obtain ⟨s1, h1, h2⟩ := onDragEnd_contents h source dest
      have hs1 : some s1 = some s' := by rw [← h1]; exact hs
      have hl := moved s1 _ hs1 h2
      refine Or.inr fun c' hc' => ?_
      rw [hl] at hc'
      rcases mem_reorderItems hc' with hk | ⟨hid, htext⟩
      · exact Or.inl hk
      · exact Or.inr (Or.inl ⟨hid, htext, source, dest, rfl⟩)
  | response i o =>
    cases hp : s.pending[i]? with
    | none => simp [step, hp] at hs
    | some r =>
      rw [step_response hp] at hs
      have h0 : ({ s with pending := s.pending.eraseIdx i } : Sys).contents = some contents := h
      cases r with
      | getProject =>
        cases o with
        | project data => exact Or.inl ⟨i, data, rfl, hp⟩
        | failure => exact Or.inr fun c' hc' => Or.inl (same _ hs rfl c' hc')
        | _ => simp [resume] at hs
      | generateContent k =>
        cases o with
        | content returned =>
          obtain ⟨s1, h1, h2⟩ := resume_generate_contents h0 k returned
          have hl := moved s1 _ (by rw [← h1]; exact hs) h2
          refine Or.inr fun c' hc' => ?_
          rw [hl] at hc'
          rcases mem_replaceContent hc' with hm | ⟨hr, hk⟩
          · exact Or.inl ⟨c', hm, rfl, rfl⟩
          · exact Or.inr (Or.inr ⟨i, returned, rfl, hr, Or.inl ⟨k, Or.inl hp, hk⟩⟩)
        | failure => exact Or.inr fun c' hc' => Or.inl (same _ hs rfl c' hc')
        | _ => simp [resume] at hs
      | refineContent k prompt =>
        cases o with
        | content returned =>
          obtain ⟨s1, h1, h2⟩ := resume_refine_contents h0 k prompt returned
          have hl := moved s1 _ (by rw [← h1]; exact hs) h2
          refine Or.inr fun c' hc' => ?_
          rw [hl] at hc'
          rcases mem_replaceContent hc' with hm | ⟨hr, hk⟩
          · exact Or.inl ⟨c', hm, rfl, rfl⟩
          · exact Or.inr (Or.inr ⟨i, returned, rfl, hr, Or.inl ⟨k, Or.inr ⟨prompt, hp⟩, hk⟩⟩)
        | failure => exact Or.inr fun c' hc' => Or.inl (same _ hs rfl c' hc')
        | _ => simp [resume] at hs
      | createContent title =>
        cases o with
        | content returned =>
          obtain ⟨s1, h1, h2⟩ := resume_create_contents h0 title returned
          have hl := moved s1 _ (by rw [← h1]; exact hs) h2
          refine Or.inr fun c' hc' => ?_
          rw [hl] at hc'
          rcases List.mem_append.1 hc' with hm | hm
          · exact Or.inl ⟨c', hm, rfl, rfl⟩
          · exact Or.inr (Or.inr ⟨i, returned, rfl, by simpa using hm, Or.inr ⟨title, hp⟩⟩)
        | failure => exact Or.inr fun c' hc' => Or.inl (same _ hs rfl c' hc')
        | _ => simp [resume] at hs
      | deleteContent k =>
        cases o with
        | ack =>
          obtain ⟨s1, h1, h2⟩ := resume_delete_contents h0 k
          have hl := moved s1 _ (by rw [← h1]; exact hs) h2
          refine Or.inr fun c' hc' => ?_
          rw [hl] at hc'
          exact Or.inl ⟨c', List.mem_of_mem_filter hc', rfl, rfl⟩
        | failure => exact Or.inr fun c' hc' => Or.inl (same _ hs rfl c' hc')
        | _ => simp [resume] at hs
      | updateFeedback k feedback =>
        cases o with
        | content returned =>
          obtain ⟨s1, h1, h2⟩ := resume_feedback_contents h0 k feedback returned
          have hl := moved s1 _ (by rw [← h1]; exact hs) h2
          refine Or.inr fun c' hc' => ?_
          rw [hl] at hc'
          exact Or.inl (mem_patchFeedback hc')
        | failure => exact Or.inr fun c' hc' => Or.inl (same _ hs rfl c' hc')
        | _ => simp [resume] at hs
      | updateNotes k notes =>
        cases o with
        | content returned =>
          obtain ⟨s1, h1, h2⟩ := resume_notes_contents h0 k notes returned
          have hl := moved s1 _ (by rw [← h1]; exact hs) h2
          refine Or.inr fun c' hc' => ?_
          rw [hl] at hc'
          exact Or.inl (mem_patchNotes hc')
        | failure => exact Or.inr fun c' hc' => Or.inl (same _ hs rfl c' hc')
        | _ => simp [resume] at hs
      | importFirebase ids =>
        cases o with
        | currentUser present =>
          cases present with
          | true => exact Or.inr fun c' hc' => Or.inl (same _ hs rfl c' hc')
          | false => exact Or.inr fun c' hc' => Or.inl (same _ hs rfl c' hc')
        | failure => exact Or.inr fun c' hc' => Or.inl (same _ hs rfl c' hc')
        | _ => simp [resume] at hs
      | getIdToken ids =>
        cases o with
        | ack => exact Or.inr fun c' hc' => Or.inl (same _ hs rfl c' hc')
        | failure => exact Or.inr fun c' hc' => Or.inl (same _ hs rfl c' hc')
        | _ => simp [resume] at hs
      | putReorder ids =>
        cases o with
        | ack => exact Or.inr fun c' hc' => Or.inl (same _ hs rfl c' hc')
        | failure => exact Or.inr fun c' hc' => Or.inl (same _ hs rfl c' hc')
        | _ => simp [resume] at hs

/-- C17 (amended), at three sections of which the first, with text, is dragged
to the end. -/
theorem content_text_frame_witness :
    (sysOf [secT, secY, secZ]).contents = some [secT, secY, secZ]
    ∧ step (sysOf [secT, secY, secZ]) (.dragEnd 0 (some 2))
      = some { ui := (sysOf [{ secY with section_order := 0 }, { secZ with section_order := 1 },
                             { secT with section_order := 2 }]).ui,
               pending := [.importFirebase [some 2, some 3, some 1]] }
    ∧ ((∃ i data, Event.dragEnd 0 (some 2) = .response i (.project data)
          ∧ (sysOf [secT, secY, secZ]).pending[i]? = some .getProject)
      ∨ ∀ c' ∈ [{ secY with section_order := 0 }, { secZ with section_order := 1 },
                { secT with section_order := 2 }],
          (∃ c ∈ [secT, secY, secZ], c.id = c'.id ∧ c.content_text = c'.content_text)
          ∨ (c'.id = none ∧ c'.content_text = none
              ∧ ∃ source destination, Event.dragEnd 0 (some 2) = .dragEnd source (some destination))
          ∨ ∃ i returned, Event.dragEnd 0 (some 2) = .response i (.content returned)
              ∧ c' = returned
              ∧ ((∃ k, ((sysOf [secT, secY, secZ]).pending[i]? = some (.generateContent k)
                        ∨ ∃ prompt, (sysOf [secT, secY, secZ]).pending[i]?
                            = some (.refineContent k prompt))
                    ∧ ∃ c ∈ [secT, secY, secZ], c.id = k)
                 ∨ ∃ title, (sysOf [secT, secY, secZ]).pending[i]?
                      = some (.createContent title))) :=
  ⟨rfl, rfl,
    content_text_frame (sysOf [secT, secY, secZ]) _ (.dragEnd 0 (some 2)) [secT, secY, secZ] _
      rfl rfl rfl⟩

theorem getElem?_append_length {α : Type} (l : List α) (r : α) :
    (l ++ [r])[l.length]? = some r := by
  simp

theorem eraseIdx_append_length {α : Type} (l : List α) (r : α) :
    (l ++ [r]).eraseIdx l.length = l := by
  induction l with
  | nil => rfl
  | cons a l ih => simp [List.eraseIdx, ih]

/-! ## C18: the notes draft -/

/-- C18: `handleNotesSave` never writes the draft (`notesText`). Calling it leaves
the component state as it is and sends the draft of the section; when the save
succeeds, `user_notes` of the sections with that id is the draft that was sent,
and nothing else in the component state changes; when it fails, nothing changes.
With nothing in between, the committed notes equal the draft, which is still
there. -/
theorem notes_save_keeps_draft (s : Sys) (p : Project) (contents : List Section)
    (k : ContentId) (i : Nat) (notes : Option String) (returned : Section)
    (hproj : s.ui.project = some p) (hc : p.contents = some contents)
    (hp : s.pending[i]? = some (.updateNotes k notes)) :
    handleNotesSave s k
      = { s with pending := s.pending ++ [.updateNotes k (s.ui.notesText k)] }
    ∧ step s (.response i (.content returned))
      = some
          { ui :=
              { s.ui with
                project := some { p with contents := some (contents.map (fun c =>
                  if c.id = k then { c with user_notes := notes } else c)) } },
            pending := s.pending.eraseIdx i }
    ∧ step s (.response i .failure) = some { s with pending := s.pending.eraseIdx i }
    ∧ ∃ s2 contents2,
        run s [.notesSave k, .response s.pending.length (.content returned)] = some s2
        ∧ s2.contents = some contents2
        ∧ s2.ui.notesText = s.ui.notesText
        ∧ s2.pending = s.pending
        ∧ contents2.map (fun c => c.id) = contents.map (fun c => c.id)
        ∧ ∀ c ∈ contents2, c.id = k → c.user_notes = s2.ui.notesText k := by
  refine ⟨rfl, ?_, by rw [step_response hp]; rfl, ?_⟩
  · rw [step_response hp]
    simp only [resume]
    rw [setContents_eq (s := { s with pending := s.pending.eraseIdx i }) hproj hc]
    rfl
  · have hq : (handleNotesSave s k).pending[s.pending.length]?
        = some (.updateNotes k (s.ui.notesText k)) := getElem?_append_length _ _
    refine ⟨{ ui :=
                { s.ui with
                  project :=
                    some { p with contents := some (patchNotes k (s.ui.notesText k) contents) } },
              pending := s.pending }, patchNotes k (s.ui.notesText k) contents, ?_, ?_, rfl,
      rfl, ?_, ?_⟩
    · show (step (handleNotesSave s k) (.response s.pending.length (.content returned))).bind
        (fun s' => some s') = _
      rw [step_response hq]
      simp only [resume]
      rw [setContents_eq (s := { handleNotesSave s k with
        pending := (handleNotesSave s k).pending.eraseIdx s.pending.length }) hproj hc]
      simp [handleNotesSave, Sys.await, eraseIdx_append_length]
    · simp [Sys.contents]
    · unfold patchNotes
      rw [List.map_map]
      exact List.map_congr_left (fun c _ => by dsimp only [Function.comp]; split <;> rfl)
    · intro c hmem hid
      obtain ⟨c0, _, rfl⟩ := List.mem_map.1 hmem
      by_cases h0 : c0.id = k
      · simp [h0]
      · simp [h0] at hid

/-- C18, at a page whose section `X` has the draft `n`, with the save awaited. -/
theorem notes_save_keeps_draft_witness :
    (handleNotesSave (toggleNotes (sysOf [secT]) (some 1) (some "n")) (some 1)).pending[0]?
      = some (.updateNotes (some 1) (some "n"))
    ∧ (run (sysOf [secT])
        [.toggleNotes (some 1) (some "n"), .notesSave (some 1),
         .response 0 (.content secT)]).map
          (fun s => (s.contents, s.ui.notesText (some 1)))
      = some (some [{ secT with user_notes := some "n" }], some "n")
    ∧ step (handleNotesSave (toggleNotes (sysOf [secT]) (some 1) (some "n")) (some 1))
        (.response 0 .failure)
      = some { handleNotesSave (toggleNotes (sysOf [secT]) (some 1) (some "n")) (some 1) with
               pending := (handleNotesSave (toggleNotes (sysOf [secT]) (some 1) (some "n"))
                 (some 1)).pending.eraseIdx 0 } :=
  ⟨by decide, by decide,
    (notes_save_keeps_draft
      (handleNotesSave (toggleNotes (sysOf [secT]) (some 1) (some "n")) (some 1))
      (projectOf [secT]) [secT] (some 1) 0 (some "n") secT rfl rfl (by decide)).2.2.1⟩

theorem section_order_of_contiguous {contents : List Section} (hc : Contiguous contents)
    {j : Nat} {c : Section} (hj : contents[j]? = some c) : c.section_order = Int.ofNat j := by
  unfold Contiguous at hc
  have h1 : (contents.map (fun c => c.section_order))[j]? = some c.section_order := by
    simp [hj]
  rw [hc] at h1
  have hlt : j < contents.length := (List.getElem?_eq_some_iff.1 hj).1
  simpa [List.getElem?_map, List.getElem?_range hlt] using h1.symm

theorem mapIdx_order_of_contiguous {contents : List Section} (hc : Contiguous contents) :
    contents.mapIdx (fun position c => { c with section_order := Int.ofNat position })
      = contents := by
  rw [List.mapIdx_eq_iff]
  intro j
  cases hj : contents[j]? with
  | none => rfl
  | some c =>
    have := section_order_of_contiguous hc hj
    simp only [Option.map_some']
    congr 1
    cases c
    simp_all

theorem insertIdx_eraseIdx_self (contents : List Section) (i : Nat) (hi : i < contents.length) :
    (contents.eraseIdx i).insertIdx i contents[i] = contents := by
  rw [insertIdx_eq_take_append_drop _ _ _ (by rw [List.length_eraseIdx]; simp [hi]; omega),
    List.eraseIdx_eq_take_drop_succ]
  have hlen : (List.take i contents).length = i := by simp; omega
  rw [List.take_left' hlen, List.drop_left' hlen, ← List.drop_eq_getElem_cons hi,
    List.take_append_drop]

theorem reorderItems_same_index {contents : List Section} (hc : Contiguous contents)
    (i : Nat) (hi : i < contents.length) : reorderItems contents i i = contents := by
  rw [reorderItems_eq_moveSpec contents i i hi hi]
  unfold moveSpec
  simp only [List.getElem?_eq_getElem hi]
  rw [insertIdx_eraseIdx_self contents i hi, mapIdx_order_of_contiguous hc]

/-! ## C19: equal indices -/

/-- C19, the claim as stated fails: a drag of `Y` from index 1 to index 1 in
`[X, Y, Z]` leaves the list as it is, but the work goes on: the import is awaited,
and with a signed-in user the `PUT` is sent. -/
theorem equal_indices_still_send :
    (run (sysOf [secX, secY, secZ]) [.dragEnd 1 (some 1)]).map
        (fun s => (s.contents, s.pending))
      = some (some [secX, secY, secZ], [.importFirebase [some 1, some 2, some 3]])
    ∧ (run (sysOf [secX, secY, secZ])
        [.dragEnd 1 (some 1), .response 0 (.currentUser true), .response 0 .ack]).map
          (fun s => s.pending)
      = some [.putReorder [some 1, some 2, some 3]] := by
  decide

/-- C19 (amended): on a list whose `section_order` values equal the positions, a
drag with `sourceIndex = destIndex = i` inside the list leaves the component
state as it is; `onDragEnd` makes no check for equal indices and goes on as for
any drag, awaiting the import that leads to the `PUT` with the unchanged id
sequence. -/
theorem equal_indices_keep_list (s : Sys) (p : Project) (contents : List Section) (i : Nat)
    (hp : s.ui.project = some p) (hc : p.contents = some contents)
    (hcont : Contiguous contents) (hi : i < contents.length) :
    onDragEnd s i (some i)
      = some { s with
               pending := s.pending ++ [.importFirebase (contents.map (fun c => c.id))] } := by
  have hproj : s.ui.project = some { p with contents := some contents } := by
    rw [hp]; cases p; simp_all
  simp only [onDragEnd, hp, hc, reorderItems_same_index hcont i hi, Sys.await]
  rw [← hproj]

/-- C19 (amended), at `[X, Y, Z]` with `Y` dropped where it was. -/
theorem equal_indices_keep_list_witness :
    Contiguous [secX, secY, secZ] ∧ 1 < [secX, secY, secZ].length
    ∧ onDragEnd (sysOf [secX, secY, secZ]) (1 : Nat) (some ((1 : Nat) : Int))
      = some { sysOf [secX, secY, secZ] with
               pending := (sysOf [secX, secY, secZ]).pending
                 ++ [.importFirebase ([secX, secY, secZ].map (fun c => c.id))] } :=
  ⟨by decide, by decide,
    equal_indices_keep_list (sysOf [secX, secY, secZ]) (projectOf [secX, secY, secZ])
      [secX, secY, secZ] 1 rfl rfl (by decide) (by decide)⟩

/-! ## C20: what the reorder call sends -/

/-- C20, the claim as stated fails: with no signed-in user the drag stores the
reordered list and then nothing is awaited any more: no `PUT` is sent. -/
theorem reorder_not_sent_without_user :
    (run (sysOf [secX, secY, secZ]) [.dragEnd 0 (some 2), .response 0 (.currentUser false)]).map
        (fun s => (s.contents, s.pending))
      = some (some [{ secY with section_order := 0 }, { secZ with section_order := 1 },
                    { secX with section_order := 2 }], []) := by
  decide

/-- C20 (amended): a drag with a destination stores the reordered list and awaits
the import, carrying the ids of the stored list in order. With a signed-in user
and a token the `PUT` is sent with exactly those ids, the complete id sequence of
the list the drag stored; with no signed-in user nothing is sent; when the import
or the token fails, no `PUT` is sent and the project is refetched. -/
theorem reorder_sends_stored_ids (s : Sys) (contents : List Section) (source destination : Int)
    (h : s.contents = some contents) :
    ∃ s1 stored, onDragEnd s source (some destination) = some s1
      ∧ s1.contents = some stored
      ∧ stored = reorderItems contents source destination
      ∧ s1.pending = s.pending ++ [.importFirebase (stored.map (fun c => c.id))]
      ∧ run s1 [.response s.pending.length (.currentUser true),
                .response s.pending.length .ack]
          = some { s1 with pending := s.pending ++ [.putReorder (stored.map (fun c => c.id))] }
      ∧ step s1 (.response s.pending.length (.currentUser false))
          = some { s1 with pending := s.pending }
      ∧ step s1 (.response s.pending.length .failure)
          = some { s1 with pending := s.pending ++ [.getProject] }
      ∧ run s1 [.response s.pending.length (.currentUser true),
                .response s.pending.length .failure]
          = some { s1 with pending := s.pending ++ [.getProject] } := by
  obtain ⟨p, hp, hc⟩ := contents_eq_some h
  have hq : ∀ (ui : EditorState) (r : Request),
      ({ ui := ui, pending := s.pending ++ [r] } : Sys).pending[s.pending.length]? = some r :=
    fun _ r => getElem?_append_length s.pending r
  refine ⟨{ ui :=
              { s.ui with
                project :=
                  some { p with contents := some (reorderItems contents source destination) } },
            pending :=
              s.pending ++
                [.importFirebase ((reorderItems contents source destination).map
                  (fun c => c.id))] },
    reorderItems contents source destination, ?_, ?_, rfl, rfl, ?_, ?_, ?_, ?_⟩
  · simp [onDragEnd, hp, hc, Sys.await]
  · simp [Sys.contents]
  · simp only [run, Option.bind]
    rw [step_response (hq _ _)]
    simp only [resume, Sys.await, eraseIdx_append_length]
    rw [step_response (hq _ _)]
    simp only [resume, Sys.await, eraseIdx_append_length]
  · rw [step_response (hq _ _)]
    simp only [resume, eraseIdx_append_length]
  · rw [step_response (hq _ _)]
    simp only [resume, fetchProject, Sys.await, eraseIdx_append_length]
  · simp only [run, Option.bind]
    rw [step_response (hq _ _)]
    simp only [resume, Sys.await, eraseIdx_append_length]
    rw [step_response (hq _ _)]
    simp only [resume, fetchProject, Sys.await, eraseIdx_append_length]

/-- C20 (amended), at `[X, Y, Z]` with `X` dragged to the end. -/
theorem reorder_sends_stored_ids_witness :
    (sysOf [secX, secY, secZ]).contents = some [secX, secY, secZ]
    ∧ run (sysOf [secX, secY, secZ])
        [.dragEnd 0 (some 2), .response 0 (.currentUser true), .response 0 .ack]
      = some draggedSys
    ∧ ∃ s1 stored, onDragEnd (sysOf [secX, secY, secZ]) 0 (some 2) = some s1
      ∧ s1.contents = some stored
      ∧ stored = reorderItems [secX, secY, secZ] 0 2
      ∧ s1.pending
        = (sysOf [secX, secY, secZ]).pending ++ [.importFirebase (stored.map (fun c => c.id))] :=
  ⟨rfl, rfl,
    (reorder_sends_stored_ids (sysOf [secX, secY, secZ]) [secX, secY, secZ] 0 2 rfl).imp
      fun _ hs1 => hs1.imp fun _ hst => ⟨hst.1, hst.2.1, hst.2.2.1, hst.2.2.2.1⟩⟩

theorem afterLiteral_eq_some :
    ∀ (literal input rest : List Char), afterLiteral literal input = some rest →
      input = literal ++ rest
  | [], input, rest, h => by simpa [afterLiteral] using h
  | _ :: _, [], _, h => by simp [afterLiteral] at h
  | c :: literal, d :: input, rest, h => by
    by_cases hcd : c = d
    · simp only [afterLiteral, hcd, if_true] at h
      simp [hcd, afterLiteral_eq_some literal input rest h]
    · simp [afterLiteral, hcd] at h

theorem dropWhile_nil_or_head (l : List Char) :
    l.dropWhile (fun c => c != quote) = []
      ∨ (l.dropWhile (fun c => c != quote)).head? = some quote := by
  induction l with
  | nil => exact Or.inl rfl
  | cons a l ih =>
    by_cases ha : a = quote
    · right; simp [List.dropWhile_cons, ha]
    · simpa [List.dropWhile_cons, ha] using ih

theorem takeWhile_run (rest run : List Char)
    (h : (if (rest.takeWhile (fun c => c != quote)).isEmpty then none
          else some (rest.takeWhile (fun c => c != quote))) = some run) :
    run ≠ [] ∧ quote ∉ run
      ∧ ∃ after, rest = run ++ after ∧ (after = [] ∨ after.head? = some quote) := by
  by_cases he : (rest.takeWhile (fun c => c != quote)).isEmpty = true
  · simp [he] at h
  · simp only [he] at h
    have hr : rest.takeWhile (fun c => c != quote) = run := by simpa using h
    refine ⟨?_, ?_, rest.dropWhile (fun c => c != quote), ?_, dropWhile_nil_or_head rest⟩
    · rw [← hr]; simpa [List.isEmpty_iff] using he
    · intro hq
      rw [← hr] at hq
      simpa using List.mem_takeWhile_imp hq
    · rw [← hr, List.takeWhile_append_dropWhile]

theorem matchHere_eq_some {input run : List Char} (h : matchHere input = some run) :
    run ≠ [] ∧ quote ∉ run
      ∧ ∃ after, (input = "filename=".toList ++ run ++ after
            ∨ input = "filename=".toList ++ quote :: run ++ after)
          ∧ (after = [] ∨ after.head? = some quote) := by
  unfold matchHere at h
  cases h1 : afterLiteral "filename=".toList input with
  | none => rw [h1] at h; cases h
  | some rest =>
    have hin := afterLiteral_eq_some _ _ _ h1
    rw [h1] at h
    cases rest with
    | nil => simp at h
    | cons c tail =>
      by_cases hc : c = quote
      · simp only [hc, if_true] at h
        obtain ⟨h2, h3, after, h4, h5⟩ := takeWhile_run tail run h
        exact ⟨h2, h3, after, Or.inr (by rw [hin, hc, h4]; simp), h5⟩
      · simp only [hc, if_false] at h
        obtain ⟨h2, h3, after, h4, h5⟩ := takeWhile_run (c :: tail) run h
        exact ⟨h2, h3, after, Or.inl (by rw [hin, h4]; simp), h5⟩

theorem filenameMatch_eq_some {run : List Char} :
    ∀ {input : List Char}, filenameMatch input = some run →
      run ≠ [] ∧ quote ∉ run
        ∧ ∃ before after, (input = before ++ "filename=".toList ++ run ++ after
              ∨ input = before ++ "filename=".toList ++ quote :: run ++ after)
            ∧ (after = [] ∨ after.head? = some quote)
  | [], h => by simp [filenameMatch] at h
  | c :: input, h => by
    unfold filenameMatch at h
    cases h1 : matchHere (c :: input) with
    | some r =>
      rw [h1] at h
      cases h
      obtain ⟨h2, h3, after, h4, h5⟩ := matchHere_eq_some h1
      exact ⟨h2, h3, [], after, by simpa using h4, h5⟩
    | none =>
      rw [h1] at h
      obtain ⟨h2, h3, before, after, h4, h5⟩ := filenameMatch_eq_some h
      refine ⟨h2, h3, c :: before, after, ?_, h5⟩
      rcases h4 with h4 | h4
      · left; rw [h4]; simp
      · right; rw [h4]; simp

theorem headerFilename_eq_some {contentDisposition : Option String} {f : String}
    (h : headerFilename contentDisposition = some f) :
    f ≠ "" ∧ quote ∉ f.toList
      ∧ ∃ header before after, contentDisposition = some header
          ∧ (header.toList = before ++ "filename=".toList ++ f.toList ++ after
              ∨ header.toList = before ++ "filename=".toList ++ quote :: f.toList ++ after)
          ∧ (after = [] ∨ after.head? = some quote) := by
  unfold headerFilename at h
  cases contentDisposition with
  | none => simp [truthy] at h
  | some header =>
    by_cases ht : truthy (some header) = true
    · simp only [ht, if_true, Option.getD_some, Option.map_eq_some'] at h
      obtain ⟨run, hrun, rfl⟩ := h
      obtain ⟨h2, h3, before, after, h4, h5⟩ := filenameMatch_eq_some hrun
      refine ⟨?_, h3, header, before, after, rfl, h4, h5⟩
      intro h0
      apply h2
      have := congrArg String.toList h0
      simpa using this
    · simp [ht] at h

/-! ## C21: the export filename -/

/-- C21: the download filename chosen by `exportDocument` always contains a `.`.
When the header gives a filename (the characters after `filename=` and one
optional double quote, up to the next double quote or the end of the header, at
least one), the download filename is that filename if it contains a `.`, and
that filename followed by `.` and (`docType` or `docx`) if it does not; when the
header gives none, it is (`title` or `document`) followed by `.` and (`docType`
or `docx`). -/
theorem export_filename_fallback (title docType contentDisposition : Option String) :
    '.' ∈ (exportDocument title docType contentDisposition).toList
    ∧ (∀ f, headerFilename contentDisposition = some f → '.' ∈ f.toList →
        exportDocument title docType contentDisposition = f)
    ∧ (∀ f, headerFilename contentDisposition = some f → '.' ∉ f.toList →
        exportDocument title docType contentDisposition
          = f ++ "." ++ orElse docType "docx")
    ∧ (headerFilename contentDisposition = none →
        exportDocument title docType contentDisposition
          = orElse title "document" ++ "." ++ orElse docType "docx")
    ∧ ∀ f, headerFilename contentDisposition = some f →
        f ≠ "" ∧ quote ∉ f.toList
          ∧ ∃ header before after, contentDisposition = some header
              ∧ (header.toList = before ++ "filename=".toList ++ f.toList ++ after
                  ∨ header.toList
                      = before ++ "filename=".toList ++ quote :: f.toList ++ after)
              ∧ (after = [] ∨ after.head? = some quote) := by
  have found : ∀ f, headerFilename contentDisposition = some f → truthy (some f) = true := by
    intro f hf
    have hne := (headerFilename_eq_some hf).1
    simpa [truthy] using hne
  have hdot : ∀ f, headerFilename contentDisposition = some f → '.' ∈ f.toList →
      exportDocument title docType contentDisposition = f := by
    intro f hf hmem
    have hmem' : '.' ∈ f.data := hmem
    simp [exportDocument, hf, found f hf, hmem']
  have hnodot : ∀ f, headerFilename contentDisposition = some f → '.' ∉ f.toList →
      exportDocument title docType contentDisposition = f ++ "." ++ orElse docType "docx" := by
    intro f hf hmem
    have hmem' : '.' ∉ f.data := hmem
    simp [exportDocument, hf, found f hf, hmem']
  have hnone : headerFilename contentDisposition = none →
      exportDocument title docType contentDisposition
        = orElse title "document" ++ "." ++ orElse docType "docx" := by
    intro hf
    simp [exportDocument, hf, truthy]
  refine ⟨?_, hdot, hnodot, hnone, fun f hf => headerFilename_eq_some hf⟩
  cases hf : headerFilename contentDisposition with
  | none => rw [hnone hf]; simp
  | some f =>
    by_cases hmem : '.' ∈ f.toList
    · rw [hdot f hf hmem]; exact hmem
    · rw [hnodot f hf hmem]; simp

/-- C21, at the three cases: a header naming `report.docx`, a header naming
`report`, and no header. -/
theorem export_filename_fallback_witness :
    headerFilename (some (attachmentHeader "report.docx")) = some "report.docx"
    ∧ exportDocument (some "T") (some "pptx") (some (attachmentHeader "report.docx"))
      = "report.docx"
    ∧ exportDocument (some "T") (some "pptx") (some (attachmentHeader "report"))
      = "report.pptx"
    ∧ exportDocument (some "") none none = "document.docx" :=
  ⟨by decide,
    (export_filename_fallback (some "T") (some "pptx")
      (some (attachmentHeader "report.docx"))).2.1 "report.docx" (by decide) (by decide),
    by decide, by decide⟩

end Editor
